import Mathlib

/-!
# Verification of the meilisearch index-scheduler core

This file is a shallow embedding, in Lean 4, of the task-queue and batch
machinery of the index scheduler (`index-scheduler/src/batch.rs` and
`index-scheduler/src/utils.rs`), together with theorems settling the
behavioural claims about it.

The transactional key-value tables of the task store (heed databases) are
modelled as association lists with unique keys; roaring bitmaps are modelled
as `Finset ℕ`; timestamps (`OffsetDateTime`) are modelled by their nanosecond
value (`Int`), the only attribute the scheduler core ever reads from them.
Fallible operations return `Except SchedError`; a Rust `assert!` or
`unreachable!` panic aborts the enclosing write transaction, which the pure
model renders as an `Except.error` that discards the updated state.
-/

namespace Meili

/-! ## Association-list tables (model of the heed databases) -/

/-- `alGet m k` is the value stored under key `k`, mirroring `Database::get`. -/
def alGet {κ β : Type} [DecidableEq κ] : List (κ × β) → κ → Option β
  | [], _ => none
  | p :: tl, k => if p.1 = k then some p.2 else alGet tl k

/-- `alPut m k v` stores `v` under `k`, replacing any previous binding,
mirroring `Database::put`. -/
def alPut {κ β : Type} [DecidableEq κ] : List (κ × β) → κ → β → List (κ × β)
  | [], k, v => [(k, v)]
  | p :: tl, k, v => if p.1 = k then (k, v) :: tl else p :: alPut tl k v

/-- `alDelete m k` removes the binding of `k`, mirroring `Database::delete`. -/
def alDelete {κ β : Type} [DecidableEq κ] : List (κ × β) → κ → List (κ × β)
  | [], _ => []
  | p :: tl, k => if p.1 = k then alDelete tl k else p :: alDelete tl k

/-! ## Task data model

The `Task`, `Status`, `Kind`, `KindWithContent` and `Details` types live in
`meilisearch-types/src/tasks.rs`, which is not part of the sources at hand;
they are modelled from the spec (§3 "DATA MODEL") and from the exhaustive
pattern matches over them in `batch.rs` and `utils.rs`. -/

/-- Task identifier: `pub type TaskId = u32`.  The claims never exercise
arithmetic overflow, so uids are modelled as `ℕ`. -/
abbrev TaskId := ℕ

/-- Content-file identifier (`uuid::Uuid`), opaque to the scheduler. -/
abbrev Uuid := ℕ

/-- Timestamps are modelled by their `unix_timestamp_nanos()` value, the only
attribute of `OffsetDateTime` the scheduler core reads. -/
abbrev Timestamp := ℤ

/-- Modelled from the spec: `status`: one of
`{Enqueued, Processing, Succeeded, Failed, Canceled}`. -/
inductive Status : Type
  | enqueued
  | processing
  | succeeded
  | failed
  | canceled
deriving DecidableEq, Fintype

/-- Modelled from the spec: the kind *tags* (the payload-free mirror of
`KindWithContent` used as key of the `kind` table).  The dump kind is named
`DumpExport` in this version of the code (`Kind::DumpExport` in
`create_next_batch`). -/
inductive Kind : Type
  | documentAdditionOrUpdate
  | documentDeletion
  | documentClear
  | settingsUpdate
  | indexCreation
  | indexUpdate
  | indexDeletion
  | indexSwap
  | taskCancelation
  | taskDeletion
  | dumpExport
  | snapshot
deriving DecidableEq, Fintype

/-- `milli::update::IndexDocumentsMethod`. -/
inductive IndexDocumentsMethod : Type
  | replaceDocuments
  | updateDocuments
deriving DecidableEq

/-- Settings payloads (`Settings<Unchecked>`) are external to the scheduler
core; the scheduler only moves them around, so they are modelled as opaque
tokens. -/
abbrev SettingsPayload := ℕ

/-- Modelled from the spec: the `kind` tagged variant of a task, §3 "DATA
MODEL".  The `DumpCreation` payload fields that the modelled code never reads
(`instance_uid`, `keys`) are elided; the spec's `DumpCreation` is
`DumpExport` in this version of the code. -/
inductive KindWithContent : Type
  | documentAdditionOrUpdate (index_uid : String) (primary_key : Option String)
      (method : IndexDocumentsMethod) (content_file : Uuid)
      (documents_count : ℕ) (allow_index_creation : Bool)
  | documentDeletion (index_uid : String) (documents_ids : List String)
  | documentClear (index_uid : String)
  | settingsUpdate (index_uid : String) (new_settings : SettingsPayload)
      (is_deletion : Bool) (allow_index_creation : Bool)
  | indexCreation (index_uid : String) (primary_key : Option String)
  | indexUpdate (index_uid : String) (primary_key : Option String)
  | indexDeletion (index_uid : String)
  | indexSwap (swaps : List (String × String))
  | taskCancelation (query : String) (tasks : Finset ℕ)
  | taskDeletion (query : String) (tasks : Finset ℕ)
  | dumpExport (dump_uid : String)
  | snapshot
deriving DecidableEq

namespace KindWithContent

/-- Modelled from the spec: the payload-free tag of a kind
(`KindWithContent::as_kind` of `tasks.rs`). -/
def as_kind : KindWithContent → Kind
  | documentAdditionOrUpdate .. => .documentAdditionOrUpdate
  | documentDeletion .. => .documentDeletion
  | documentClear .. => .documentClear
  | settingsUpdate .. => .settingsUpdate
  | indexCreation .. => .indexCreation
  | indexUpdate .. => .indexUpdate
  | indexDeletion .. => .indexDeletion
  | indexSwap .. => .indexSwap
  | taskCancelation .. => .taskCancelation
  | taskDeletion .. => .taskDeletion
  | dumpExport .. => .dumpExport
  | snapshot => .snapshot

/-- Modelled from the spec: `indexes_of(t.kind)` (§3 invariant 1), the
`KindWithContent::indexes` method of `tasks.rs`: the index uids a task
operates on, `none` for the control kinds (cancelation, deletion, dump,
snapshot). -/
def indexes : KindWithContent → Option (List String)
  | documentAdditionOrUpdate index_uid .. => some [index_uid]
  | documentDeletion index_uid _ => some [index_uid]
  | documentClear index_uid => some [index_uid]
  | settingsUpdate index_uid .. => some [index_uid]
  | indexCreation index_uid _ => some [index_uid]
  | indexUpdate index_uid _ => some [index_uid]
  | indexDeletion index_uid => some [index_uid]
  | indexSwap swaps => some (swaps.foldr (fun p acc => p.1 :: p.2 :: acc) [])
  | taskCancelation .. => none
  | taskDeletion .. => none
  | dumpExport _ => none
  | snapshot => none

end KindWithContent

/-- Modelled from the spec: the `details` variant mirroring `kind`, §3 "DATA
MODEL", with the exact fields matched in `batch.rs` and in
`utils.rs::assert_internally_consistent`. -/
inductive Details : Type
  | documentAdditionOrUpdate (received_documents : ℕ)
      (indexed_documents : Option ℕ)
  | settingsUpdate (settings : SettingsPayload)
  | indexInfo (primary_key : Option String)
  | documentDeletion (received_document_ids : ℕ) (deleted_documents : Option ℕ)
  | clearAll (deleted_documents : Option ℕ)
  | taskCancelation (matched_tasks : ℕ) (canceled_tasks : Option ℕ)
      (original_query : String)
  | taskDeletion (matched_tasks : ℕ) (deleted_tasks : Option ℕ)
      (original_query : String)
  | dump (dump_uid : String)
  | indexSwap (swaps : List (String × String))
deriving DecidableEq

/-- Modelled from the spec: a task record (§3 "DATA MODEL").  `error` payloads
are opaque to the scheduler and modelled as strings. -/
structure Task : Type where
  uid : TaskId
  enqueued_at : Timestamp
  started_at : Option Timestamp
  finished_at : Option Timestamp
  error : Option String
  canceled_by : Option TaskId
  details : Option Details
  status : Status
  kind : KindWithContent
deriving DecidableEq

namespace Task

/-- Modelled from the spec: `Task::content_uuid` of `tasks.rs` — the
content-file identifier attached to a task; only document-addition tasks
carry one (§3: content files are "attached to addition tasks"). -/
def content_uuid (t : Task) : Option Uuid :=
  match t.kind with
  | .documentAdditionOrUpdate _ _ _ content_file _ _ => some content_file
  | _ => none

/-- `task.indexes()`, delegated to the kind. -/
def indexes (t : Task) : Option (List String) := t.kind.indexes

end Task

/-- Modelled from the spec: `KindWithContent::default_details` of `tasks.rs` —
the details a task is "initially populated at registration with", carrying the
received-side counters and leaving every result-side counter unset (§3). -/
def KindWithContent.default_details : KindWithContent → Option Details
  | .documentAdditionOrUpdate _ _ _ _ documents_count _ =>
      some (.documentAdditionOrUpdate documents_count none)
  | .documentDeletion _ documents_ids =>
      some (.documentDeletion documents_ids.length none)
  | .documentClear _ => some (.clearAll none)
  | .settingsUpdate _ new_settings _ _ => some (.settingsUpdate new_settings)
  | .indexCreation _ primary_key => some (.indexInfo primary_key)
  | .indexUpdate _ primary_key => some (.indexInfo primary_key)
  | .indexDeletion _ => some (.clearAll none)
  | .indexSwap swaps => some (.indexSwap swaps)
  | .taskCancelation query tasks =>
      some (.taskCancelation tasks.card none query)
  | .taskDeletion query tasks => some (.taskDeletion tasks.card none query)
  | .dumpExport dump_uid => some (.dump dump_uid)
  | .snapshot => none

/-- Modelled from the spec: `KindWithContent::default_finished_details` of
`tasks.rs` — the details "completed by the executor with result-side
counters" when a task is finished without a specific outcome; the result-side
counters are zero (§3). -/
def KindWithContent.default_finished_details : KindWithContent → Option Details
  | .documentAdditionOrUpdate _ _ _ _ documents_count _ =>
      some (.documentAdditionOrUpdate documents_count (some 0))
  | .documentDeletion _ documents_ids =>
      some (.documentDeletion documents_ids.length (some 0))
  | .documentClear _ => some (.clearAll (some 0))
  | .settingsUpdate _ new_settings _ _ => some (.settingsUpdate new_settings)
  | .indexCreation _ primary_key => some (.indexInfo primary_key)
  | .indexUpdate _ primary_key => some (.indexInfo primary_key)
  | .indexDeletion _ => some (.clearAll (some 0))
  | .indexSwap swaps => some (.indexSwap swaps)
  | .taskCancelation query tasks =>
      some (.taskCancelation tasks.card (some 0) query)
  | .taskDeletion query tasks =>
      some (.taskDeletion tasks.card (some 0) query)
  | .dumpExport dump_uid => some (.dump dump_uid)
  | .snapshot => none

/-! ## Scheduler state (the `IndexScheduler` databases) -/

/-- The errors distinguished by the modelled code.  A Rust `assert!` /
`unreachable!` panic is modelled as `assertionFailed`: it aborts the enclosing
write transaction, so the updated state is discarded. -/
inductive SchedError : Type
  | corruptedTaskQueue
  | indexNotFound (index_uid : String)
  | indexAlreadyExists (index_uid : String)
  | assertionFailed (msg : String)
deriving DecidableEq

/-- The persistent databases of `IndexScheduler` that the modelled code
touches, plus the in-memory `processing_tasks` set, the index mapper (an
external collaborator, modelled as the map from index name to its
`number_of_documents`) and the `autobatching_enabled` flag. -/
structure Scheduler : Type where
  all_tasks : List (TaskId × Task)
  statusDb : List (Status × Finset ℕ)
  kindDb : List (Kind × Finset ℕ)
  indexTasksDb : List (String × Finset ℕ)
  enqueuedAtDb : List (Timestamp × Finset ℕ)
  startedAtDb : List (Timestamp × Finset ℕ)
  finishedAtDb : List (Timestamp × Finset ℕ)
  processing_tasks : Finset ℕ
  indexMapper : List (String × ℕ)
  autobatching_enabled : Bool

namespace Scheduler

/-- `IndexScheduler::get_task` (utils.rs): point read of `all_tasks`. -/
def get_task (s : Scheduler) (task_id : TaskId) : Option Task :=
  alGet s.all_tasks task_id

/-- `IndexScheduler::get_status` (utils.rs): the status bitmap, empty when the
key is absent (`unwrap_or_default`). -/
def get_status (s : Scheduler) (status : Status) : Finset ℕ :=
  (alGet s.statusDb status).getD ∅

/-- `IndexScheduler::put_status` (utils.rs). -/
def put_status (s : Scheduler) (status : Status) (bitmap : Finset ℕ) :
    Scheduler :=
  { s with statusDb := alPut s.statusDb status bitmap }

/-- `IndexScheduler::update_status` (utils.rs): read-modify-write of one
status bitmap. -/
def update_status (s : Scheduler) (status : Status)
    (f : Finset ℕ → Finset ℕ) : Scheduler :=
  s.put_status status (f (s.get_status status))

/-- `IndexScheduler::get_kind` (utils.rs). -/
def get_kind (s : Scheduler) (kind : Kind) : Finset ℕ :=
  (alGet s.kindDb kind).getD ∅

/-- `IndexScheduler::put_kind` (utils.rs). -/
def put_kind (s : Scheduler) (kind : Kind) (bitmap : Finset ℕ) : Scheduler :=
  { s with kindDb := alPut s.kindDb kind bitmap }

/-- `IndexScheduler::update_kind` (utils.rs). -/
def update_kind (s : Scheduler) (kind : Kind) (f : Finset ℕ → Finset ℕ) :
    Scheduler :=
  s.put_kind kind (f (s.get_kind kind))

/-- `IndexScheduler::index_tasks` (utils.rs): the whole set of tasks that
belongs to this index, empty when the key is absent. -/
def index_tasks (s : Scheduler) (index : String) : Finset ℕ :=
  (alGet s.indexTasksDb index).getD ∅

/-- `IndexScheduler::update_index` (utils.rs): read-modify-write of one
`index_tasks` bitmap; an emptied bitmap deletes the key instead of storing
the empty bitmap. -/
def update_index (s : Scheduler) (index : String)
    (f : Finset ℕ → Finset ℕ) : Scheduler :=
  let tasks := f (s.index_tasks index)
  if tasks = ∅ then
    { s with indexTasksDb := alDelete s.indexTasksDb index }
  else
    { s with indexTasksDb := alPut s.indexTasksDb index tasks }

/-- `IndexScheduler::all_task_ids` (utils.rs): the union of the status
bitmaps over every status. -/
def all_task_ids (s : Scheduler) : Finset ℕ :=
  Finset.univ.sup (fun st : Status => s.get_status st)

end Scheduler

/-- `insert_task_datetime` (utils.rs), over any of the three time-indexed
databases: insert `task_id` into the bitmap stored at nanosecond key `time`. -/
def insert_task_datetime (database : List (Timestamp × Finset ℕ))
    (time : Timestamp) (task_id : TaskId) : List (Timestamp × Finset ℕ) :=
  let task_ids := (alGet database time).getD ∅
  alPut database time (insert task_id task_ids)

/-- `remove_task_datetime` (utils.rs): remove `task_id` from the bitmap stored
at key `time`; delete the key when the bitmap becomes empty. -/
def remove_task_datetime (database : List (Timestamp × Finset ℕ))
    (time : Timestamp) (task_id : TaskId) : List (Timestamp × Finset ℕ) :=
  match alGet database time with
  | none => database
  | some existing =>
    let existing := existing.erase task_id
    if existing = ∅ then alDelete database time
    else alPut database time existing

/-- `keep_tasks_within_datetimes` (utils.rs): when at least one bound is
given, restrict `tasks` to the ids found by streaming the time-indexed
database over the exclusive `(after, before)` nanosecond range. -/
def keep_tasks_within_datetimes (database : List (Timestamp × Finset ℕ))
    (tasks : Finset ℕ) (after before : Option Timestamp) : Finset ℕ :=
  match after, before with
  | none, none => tasks
  | _, _ =>
    let within : Timestamp → Bool := fun t =>
      (match after with | none => true | some a => decide (a < t)) &&
      (match before with | none => true | some b => decide (t < b))
    let collected_task_ids :=
      database.foldl
        (fun acc p => if within p.1 then acc ∪ p.2 else acc) ∅
    tasks ∩ collected_task_ids

/-- `swap_index_uid_in_task` (utils.rs): substitute each occurrence of either
swapped index name by the opposite one, in the task's `kind` and in its
`IndexSwap` details. -/
def swap_index_uid_in_task (task : Task) (swap : String × String) : Task :=
  let swapOne : String → String := fun u =>
    if u = swap.1 then swap.2 else if u = swap.2 then swap.1 else u
  let kind : KindWithContent :=
    match task.kind with
    | .documentAdditionOrUpdate index_uid pk m cf dc allow =>
        .documentAdditionOrUpdate (swapOne index_uid) pk m cf dc allow
    | .documentDeletion index_uid ids => .documentDeletion (swapOne index_uid) ids
    | .documentClear index_uid => .documentClear (swapOne index_uid)
    | .settingsUpdate index_uid st isDel allow =>
        .settingsUpdate (swapOne index_uid) st isDel allow
    | .indexDeletion index_uid => .indexDeletion (swapOne index_uid)
    | .indexCreation index_uid pk => .indexCreation (swapOne index_uid) pk
    | .indexUpdate index_uid pk => .indexUpdate (swapOne index_uid) pk
    | .indexSwap swaps =>
        .indexSwap (swaps.map (fun p => (swapOne p.1, swapOne p.2)))
    | other => other
  let details : Option Details :=
    match task.details with
    | some (.indexSwap swaps) =>
        some (.indexSwap (swaps.map (fun p => (swapOne p.1, swapOne p.2))))
    | other => other
  { task with kind := kind, details := details }

/-- `IndexScheduler::update_task` (utils.rs): rewrite an existing task record
and reconcile the `status`, `kind` and timestamp secondary indexes against
the old record.  The `assert!`s of the source become `assertionFailed`
errors, which abort (roll back) the enclosing write transaction; the source's
early `return` and `assert!` statements become explicit `else` branches. -/
def Scheduler.update_task (s : Scheduler) (task : Task) :
    Except SchedError Scheduler :=
  match s.get_task task.uid with
  | none => .error .corruptedTaskQueue
  | some old_task =>
    if old_task = task then
      .ok s
    else
      let s :=
        if old_task.status ≠ task.status then
          (s.update_status old_task.status (fun bitmap => bitmap.erase task.uid)
            ).update_status task.status (fun bitmap => insert task.uid bitmap)
        else s
      let s :=
        if old_task.kind.as_kind ≠ task.kind.as_kind then
          (s.update_kind old_task.kind.as_kind
              (fun bitmap => bitmap.erase task.uid)
            ).update_kind task.kind.as_kind (fun bitmap => insert task.uid bitmap)
        else s
      if old_task.enqueued_at ≠ task.enqueued_at then
        .error (.assertionFailed "Cannot update a task's enqueued_at time")
      else if old_task.started_at ≠ task.started_at ∧
          old_task.started_at ≠ none then
        .error (.assertionFailed "Cannot update a task's started_at time")
      else
        let s :=
          if old_task.started_at ≠ task.started_at then
            match task.started_at with
            | some started_at =>
                { s with startedAtDb :=
                    insert_task_datetime s.startedAtDb started_at task.uid }
            | none => s
          else s
        if old_task.finished_at ≠ task.finished_at ∧
            old_task.finished_at ≠ none then
          .error (.assertionFailed "Cannot update a task's finished_at time")
        else
          let s :=
            if old_task.finished_at ≠ task.finished_at then
              match task.finished_at with
              | some finished_at =>
                  { s with finishedAtDb :=
                      insert_task_datetime s.finishedAtDb finished_at task.uid }
              | none => s
            else s
          .ok { s with all_tasks := alPut s.all_tasks task.uid task }

/-- `self.get_task(rtxn, id)?.ok_or(Error::CorruptedTaskQueue)` — the
pervasive fetch-or-fail pattern of `batch.rs` and `utils.rs`. -/
def getTaskOrCorrupt (s : Scheduler) (task_id : TaskId) :
    Except SchedError Task :=
  match s.get_task task_id with
  | some t => .ok t
  | none => .error .corruptedTaskQueue

/-- `IndexScheduler::get_existing_tasks` (utils.rs): fetch every task of the
iterator, failing with `CorruptedTaskQueue` on a missing record. -/
def Scheduler.get_existing_tasks (s : Scheduler) (tasks : List TaskId) :
    Except SchedError (List Task) :=
  tasks.mapM (getTaskOrCorrupt s)

/-! ## Batch executor: the `DocumentClear` index operation -/

/-- The loop body of the `IndexOperation::DocumentClear` arm of
`apply_index_operation` (batch.rs): every task becomes `Succeeded`; the first
`DocumentClear` task receives the engine's clear `count`, the following
`DocumentClear` tasks receive 0, and any other merged task receives its
kind's `default_details()`. -/
def clearTasksLoop (count : ℕ) : Bool → List Task → List Task
  | _, [] => []
  | first_clear_found, task :: rest =>
    match task.kind with
    | .documentClear _ =>
        { task with
            status := .succeeded
            details := some (.clearAll
            (some (if first_clear_found then 0 else count))) }
          :: clearTasksLoop count true rest
    | _ =>
        { task with
            status := .succeeded
            details := task.kind.default_details }
          :: clearTasksLoop count first_clear_found rest

/-- The `IndexOperation::DocumentClear` arm of `apply_index_operation`
(batch.rs).  The result of the external engine call
`milli::update::ClearDocuments::execute()` is the `count` parameter. -/
def apply_document_clear (count : ℕ) (tasks : List Task) : List Task :=
  clearTasksLoop count false tasks

/-! ## Batch executor: the `IndexDeletion` batch -/

/-- Modelled from the spec: `IndexMapper::delete_index` — the index mapper is
an external collaborator (§2); deleting a missing index surfaces
`IndexNotFound` (§7), deleting an existing one removes its entry. -/
def index_mapper_delete (mapper : List (String × ℕ)) (index_uid : String) :
    Except SchedError (List (String × ℕ)) :=
  match alGet mapper index_uid with
  | some _ => .ok (alDelete mapper index_uid)
  | none => .error (.indexNotFound index_uid)

/-- The `Batch::IndexDeletion` arm of `process_batch` (batch.rs): read
`number_of_documents` (0 if the index is missing, via `unwrap_or_default`),
delete the index tolerating `IndexNotFound` iff `index_has_been_created`,
then mark every task `Succeeded` with `ClearAll` details on the
`IndexDeletion` tasks and `default_finished_details()` on the others. -/
def process_index_deletion (mapper : List (String × ℕ)) (index_uid : String)
    (index_has_been_created : Bool) (tasks : List Task) :
    Except SchedError (List (String × ℕ) × List Task) :=
  let number_of_documents : ℕ := (alGet mapper index_uid).getD 0
  let finish : Task → Task := fun task =>
    { task with
        status := .succeeded
        details := match task.kind with
          | .indexDeletion _ => some (.clearAll (some number_of_documents))
          | otherwise => otherwise.default_finished_details }
  match index_mapper_delete mapper index_uid with
  | .ok mapper' => .ok (mapper', tasks.map finish)
  | .error (.indexNotFound u) =>
      if index_has_been_created then .ok (mapper, tasks.map finish)
      else .error (.indexNotFound u)
  | .error e => .error e

/-- Ascending iteration over a roaring bitmap (`RoaringBitmap::iter` yields
task ids in increasing order): the sorted list of the bitmap's elements,
computed by bounded filtering so that it evaluates on concrete inputs. -/
def bitmapToList (bm : Finset ℕ) : List ℕ :=
  (List.range (bm.sup id + 1)).filter (fun u => decide (u ∈ bm))

/-! ## Batch executor: the `TaskCancelation` batch -/

/-- `IndexScheduler::cancel_matched_tasks` (batch.rs): intersect the matched
bitmap with `status[Enqueued]`, then for each survivor (ascending uid, as a
roaring bitmap iterates) collect its content-file identifier if any, set
`status = Canceled`, `canceled_by = cancel_task_id`, `finished_at = now`, and
rewrite it through `update_task`.  Returns the updated store and the content
files the caller must delete after a successful commit. -/
def Scheduler.cancel_matched_tasks (s : Scheduler) (cancel_task_id : TaskId)
    (matched_tasks : Finset ℕ) (now : Timestamp) :
    Except SchedError (Scheduler × List Uuid) := do
  let cancelable_tasks := s.get_status .enqueued
  let tasks_to_cancel := cancelable_tasks ∩ matched_tasks
  let tasks ← s.get_existing_tasks (bitmapToList tasks_to_cancel)
  tasks.foldlM (fun (acc : Scheduler × List Uuid) task => do
      let content_files_to_delete :=
        match task.content_uuid with
        | some uuid => acc.2 ++ [uuid]
        | none => acc.2
      let task := { task with
          status := .canceled
          canceled_by := some cancel_task_id
          finished_at := some now }
      let s' ← acc.1.update_task task
      pure (s', content_files_to_delete))
    (s, [])

/-- The `Batch::TaskCancelation` arm of `process_batch` (batch.rs): cancel the
matched enqueued tasks, then mark the cancelation task `Succeeded` and set its
`canceled_tasks` detail to the *length of the collected content-file list*
(`canceled_tasks_content_uuids.len()` in the source).  Returns the updated
store, the updated cancelation task and the content files to delete
best-effort after commit. -/
def process_task_cancelation (s : Scheduler) (task : Task) (now : Timestamp) :
    Except SchedError (Scheduler × Task × List Uuid) := do
  match task.kind with
  | .taskCancelation _ matched_tasks => do
      let (s', canceled_tasks_content_uuids) ←
        s.cancel_matched_tasks task.uid matched_tasks now
      let task := { task with status := .succeeded }
      match task.details with
      | some (.taskCancelation matched _ original_query) =>
          pure (s',
            { task with details := some (.taskCancelation matched
                (some canceled_tasks_content_uuids.length) original_query) },
            canceled_tasks_content_uuids)
      | _ => throw (.assertionFailed "unreachable: TaskCancelation details")
  | _ => throw (.assertionFailed "unreachable: TaskCancelation kind")

/-! ## Batch executor: the `TaskDeletion` batch -/

/-- Insertion into a `HashSet`, modelled as a duplicate-free list in
insertion order (the set's iteration order is irrelevant: the updates driven
by it commute). -/
def hsInsert {α : Type} [DecidableEq α] (l : List α) (a : α) : List α :=
  if a ∈ l then l else l ++ [a]

/-- The body of the first loop of `delete_matched_tasks` (batch.rs): fetch
the task, accumulate its affected indexes, status and kind, and remove its
uid from the timestamp-indexed tables at its own timestamps. -/
def deleteLoopStep (acc : Scheduler × List String × List Status × List Kind)
    (task_id : TaskId) :
    Except SchedError (Scheduler × List String × List Status × List Kind) :=
  match acc.1.get_task task_id with
  | none => .error .corruptedTaskQueue
  | some task =>
    let affected_indexes := match task.indexes with
      | some task_indexes => task_indexes.foldl hsInsert acc.2.1
      | none => acc.2.1
    let affected_statuses := hsInsert acc.2.2.1 task.status
    let affected_kinds := hsInsert acc.2.2.2 task.kind.as_kind
    let s1 := { acc.1 with
      enqueuedAtDb :=
        remove_task_datetime acc.1.enqueuedAtDb task.enqueued_at task_id }
    let s1 := match task.started_at with
      | some started_at => { s1 with
          startedAtDb :=
            remove_task_datetime s1.startedAtDb started_at task_id }
      | none => s1
    let s1 := match task.finished_at with
      | some finished_at => { s1 with
          finishedAtDb :=
            remove_task_datetime s1.finishedAtDb finished_at task_id }
      | none => s1
    .ok (s1, affected_indexes, affected_statuses, affected_kinds)

/-- `IndexScheduler::delete_matched_tasks` (batch.rs): restrict the matched
bitmap to existing tasks minus the processing and enqueued ones; collect the
affected indexes, statuses and kinds of the deletable tasks while removing
their timestamp-index entries; subtract the deleted set from every affected
secondary-index bitmap; delete the task records; return how many tasks were
deleted. -/
def Scheduler.delete_matched_tasks (s : Scheduler)
    (matched_tasks : Finset ℕ) : Except SchedError (Scheduler × ℕ) := do
  let enqueued_tasks := s.get_status .enqueued
  let processing_tasks := s.processing_tasks
  let all_task_ids := s.all_task_ids
  let to_delete_tasks := ((all_task_ids ∩ matched_tasks) \ processing_tasks)
    \ enqueued_tasks
  let acc ← (bitmapToList to_delete_tasks).foldlM deleteLoopStep
    (s, ([], [], []))
  let s := acc.2.1.foldl (fun s index =>
    s.update_index index (fun bitmap => bitmap \ to_delete_tasks)) acc.1
  let s := acc.2.2.1.foldl (fun s status =>
    s.update_status status (fun bitmap => bitmap \ to_delete_tasks)) s
  let s := acc.2.2.2.foldl (fun s kind =>
    s.update_kind kind (fun bitmap => bitmap \ to_delete_tasks)) s
  let s := (bitmapToList to_delete_tasks).foldl (fun s task =>
    { s with all_tasks := alDelete s.all_tasks task }) s
  pure (s, to_delete_tasks.card)

/-- The `Batch::TaskDeletion` arm of `process_batch` (batch.rs): delete the
matched deletable tasks, then mark the deletion task `Succeeded` and set its
`deleted_tasks` detail to the number of deleted tasks. -/
def process_task_deletion (s : Scheduler) (task : Task) :
    Except SchedError (Scheduler × Task) := do
  match task.kind with
  | .taskDeletion _ matched_tasks => do
      let (s', deleted_tasks_count) ← s.delete_matched_tasks matched_tasks
      let task := { task with status := .succeeded }
      match task.details with
      | some (.taskDeletion matched _ original_query) =>
          pure (s', { task with details := some (.taskDeletion matched
            (some deleted_tasks_count) original_query) })
      | _ => throw (.assertionFailed "unreachable: TaskDeletion details")
  | _ => throw (.assertionFailed "unreachable: TaskDeletion kind")

/-! ## Batch executor: the `IndexSwap` batch -/

/-- Modelled from the spec: `get_task_ids` (lib.rs) for
`Query::default().with_index(uid)` — §4.1 `query(filter)`: "a bitmap over
`all_tasks` intersected with every provided facet", here only the index
facet. -/
def Scheduler.get_task_ids_index (s : Scheduler) (index : String) :
    Finset ℕ :=
  s.all_task_ids ∩ s.index_tasks index

/-- Modelled from the spec: `IndexMapper::swap` — "then swaps the mapper
entries" (§4.4 `IndexSwap`); the caller has already verified that both
indexes exist. -/
def index_mapper_swap (mapper : List (String × ℕ)) (lhs rhs : String) :
    List (String × ℕ) :=
  match alGet mapper lhs, alGet mapper rhs with
  | some l, some r => alPut (alPut mapper lhs r) rhs l
  | _, _ => mapper

/-- Modelled from the spec: the mapper entry swap is the only mapper write of
`IndexSwap`; replacing the mapper table leaves every task table untouched. -/
def set_index_mapper (s : Scheduler) (m : List (String × ℕ)) : Scheduler :=
  { s with indexMapper := m }

/-- Loop body of `apply_index_swap` (batch.rs:768-774): fetch the task and
rewrite it in place through `swap_index_uid_in_task`. -/
def swapLoopStep (lhs rhs : String) (s' : Scheduler) (tid : ℕ) :
    Except SchedError Scheduler :=
  match s'.get_task tid with
  | none => .error .corruptedTaskQueue
  | some task => .ok { s' with
      all_tasks := alPut s'.all_tasks tid
        (swap_index_uid_in_task task (lhs, rhs)) }

/-- `IndexScheduler::apply_index_swap` (batch.rs): verify both indexes exist;
collect each index's task set restricted to uids `< task_id`
(`remove_range(task_id..)`); rewrite each collected task through
`swap_index_uid_in_task`; exchange the two `index_tasks` bitmaps' collected
memberships; swap the mapper entries.  An error aborts the write
transaction, leaving every task unchanged. -/
def Scheduler.apply_index_swap (s : Scheduler) (task_id : ℕ)
    (lhs rhs : String) : Except SchedError Scheduler := do
  let index_lhs_exists := (alGet s.indexMapper lhs).isSome
  if ¬ index_lhs_exists then
    throw (.indexNotFound lhs)
  else
    let index_rhs_exists := (alGet s.indexMapper rhs).isSome
    if ¬ index_rhs_exists then
      throw (.indexNotFound rhs)
    else
      let index_lhs_task_ids :=
        (s.get_task_ids_index lhs).filter (· < task_id)
      let index_rhs_task_ids :=
        (s.get_task_ids_index rhs).filter (· < task_id)
      let s' ← (bitmapToList
          (index_lhs_task_ids ∪ index_rhs_task_ids)).foldlM
        (swapLoopStep lhs rhs) s
      let s' := s'.update_index lhs (fun lhs_tasks =>
        (lhs_tasks \ index_lhs_task_ids) ∪ index_rhs_task_ids)
      let s' := s'.update_index rhs (fun rhs_tasks =>
        (rhs_tasks \ index_rhs_task_ids) ∪ index_lhs_task_ids)
      pure (set_index_mapper s' (index_mapper_swap s'.indexMapper lhs rhs))

/-! ## Scheduler loop: batch selection (`create_next_batch`) -/

/-- Modelled from the spec: the closed `BatchKind` grammar of §4.2 (the
autobatcher lives in `autobatcher.rs`, outside the sources under
verification).  Field order follows the spec's grammar.  The spec's
primary-key compatibility rule ("identical or unspecified") is not
representable in this grammar — `BatchKind` carries no primary key — so the
modelled accumulator, like the grammar, does not track it. -/
inductive BatchKind : Type
  | documentClear (ids : List TaskId)
  | documentImport (method : IndexDocumentsMethod)
      (allow_index_creation : Bool) (import_ids : List TaskId)
  | documentDeletion (deletion_ids : List TaskId)
  | settings (settings_ids : List TaskId) (allow_index_creation : Bool)
  | clearAndSettings (other : List TaskId) (settings_ids : List TaskId)
      (allow_index_creation : Bool)
  | settingsAndDocumentImport (settings_ids : List TaskId)
      (method : IndexDocumentsMethod) (allow_index_creation : Bool)
      (import_ids : List TaskId)
  | indexCreation (id : TaskId)
  | indexUpdate (id : TaskId)
  | indexDeletion (ids : List TaskId)
  | indexSwap (id : TaskId)
deriving DecidableEq

/-- The task ids carried by a `BatchKind`, in the order the batch builder
hydrates them (`Batch::ids` lists import/cleared tasks before settings
tasks). -/
def BatchKind.kindIds : BatchKind → List TaskId
  | .documentClear ids => ids
  | .documentImport _ _ import_ids => import_ids
  | .documentDeletion deletion_ids => deletion_ids
  | .settings settings_ids _ => settings_ids
  | .clearAndSettings other settings_ids _ => other ++ settings_ids
  | .settingsAndDocumentImport settings_ids _ _ import_ids =>
      import_ids ++ settings_ids
  | .indexCreation id => [id]
  | .indexUpdate id => [id]
  | .indexDeletion ids => ids
  | .indexSwap id => [id]

/-- Modelled from the spec: the first step of the §4.2 greedy procedure — the
head task fixes the initial batch shape.  Returns
`(shape, must_create_index, keep_accumulating)`, or `none` for the control
kinds, which never reach the autobatcher.  `IndexCreation`, `IndexUpdate` and
`IndexSwap` are singletons ("index lifecycle tasks are never combined with
data tasks", "`IndexSwap` is always a singleton"); `must_create_index` is set
when the head may create a missing index (visible as
`allow_index_creation`). -/
def autobatchStart (id : TaskId) (kind : KindWithContent)
    (index_exists : Bool) : Option (BatchKind × Bool × Bool) :=
  match kind with
  | .documentAdditionOrUpdate _ _ method _ _ allow =>
      some (.documentImport method allow [id], allow && !index_exists, true)
  | .documentDeletion _ _ => some (.documentDeletion [id], false, true)
  | .documentClear _ => some (.documentClear [id], false, true)
  | .settingsUpdate _ _ _ allow =>
      some (.settings [id] allow, allow && !index_exists, true)
  | .indexCreation _ _ => some (.indexCreation id, true, false)
  | .indexUpdate _ _ => some (.indexUpdate id, false, false)
  | .indexDeletion _ => some (.indexDeletion [id], false, true)
  | .indexSwap _ => some (.indexSwap id, false, false)
  | .taskCancelation _ _ => none
  | .taskDeletion _ _ => none
  | .dumpExport _ => none
  | .snapshot => none

/-- Modelled from the spec: one step of the §4.2 greedy accumulation —
`some` extends the running shape with the next task, `none` stops the run
before it.  Additions merge only with additions of the same method; settings
merge freely; `DocumentClear` merges adjacent clears and deletions;
`ClearAndSettings` absorbs an adjacent settings run; settings and imports
combine into `SettingsAndDocumentImport`; `IndexDeletion` absorbs adjacent
data tasks. -/
def autobatchAccumulate (acc : BatchKind) (id : TaskId)
    (kind : KindWithContent) : Option BatchKind :=
  match acc, kind with
  | .documentClear ids, .documentClear _ =>
      some (.documentClear (ids ++ [id]))
  | .documentClear ids, .documentDeletion _ _ =>
      some (.documentClear (ids ++ [id]))
  | .documentClear ids, .settingsUpdate _ _ _ allow =>
      some (.clearAndSettings ids [id] allow)
  | .documentClear ids, .indexDeletion _ =>
      some (.indexDeletion (ids ++ [id]))
  | .documentImport m allow ids, .documentAdditionOrUpdate _ _ m2 _ _ _ =>
      if m = m2 then some (.documentImport m allow (ids ++ [id])) else none
  | .documentImport m allow ids, .settingsUpdate _ _ _ _ =>
      some (.settingsAndDocumentImport [id] m allow ids)
  | .documentImport _ _ ids, .indexDeletion _ =>
      some (.indexDeletion (ids ++ [id]))
  | .documentDeletion ids, .documentDeletion _ _ =>
      some (.documentDeletion (ids ++ [id]))
  | .documentDeletion ids, .documentClear _ =>
      some (.documentClear (ids ++ [id]))
  | .documentDeletion ids, .indexDeletion _ =>
      some (.indexDeletion (ids ++ [id]))
  | .settings ids allow, .settingsUpdate _ _ _ _ =>
      some (.settings (ids ++ [id]) allow)
  | .settings ids allow, .documentClear _ =>
      some (.clearAndSettings [id] ids allow)
  | .settings ids allow, .documentAdditionOrUpdate _ _ m _ _ _ =>
      some (.settingsAndDocumentImport ids m allow [id])
  | .settings ids _, .indexDeletion _ =>
      some (.indexDeletion (ids ++ [id]))
  | .clearAndSettings other sids allow, .settingsUpdate _ _ _ _ =>
      some (.clearAndSettings other (sids ++ [id]) allow)
  | .clearAndSettings other sids allow, .documentClear _ =>
      some (.clearAndSettings (other ++ [id]) sids allow)
  | .clearAndSettings other sids allow, .documentDeletion _ _ =>
      some (.clearAndSettings (other ++ [id]) sids allow)
  | .clearAndSettings other sids _, .indexDeletion _ =>
      some (.indexDeletion (other ++ sids ++ [id]))
  | .settingsAndDocumentImport sids m allow iids,
      .documentAdditionOrUpdate _ _ m2 _ _ _ =>
      if m = m2 then
        some (.settingsAndDocumentImport sids m allow (iids ++ [id]))
      else none
  | .settingsAndDocumentImport sids m allow iids, .settingsUpdate _ _ _ _ =>
      some (.settingsAndDocumentImport (sids ++ [id]) m allow iids)
  | .settingsAndDocumentImport sids _ _ iids, .indexDeletion _ =>
      some (.indexDeletion (iids ++ sids ++ [id]))
  | .indexDeletion ids, .documentAdditionOrUpdate _ _ _ _ _ _ =>
      some (.indexDeletion (ids ++ [id]))
  | .indexDeletion ids, .documentDeletion _ _ =>
      some (.indexDeletion (ids ++ [id]))
  | .indexDeletion ids, .documentClear _ =>
      some (.indexDeletion (ids ++ [id]))
  | .indexDeletion ids, .settingsUpdate _ _ _ _ =>
      some (.indexDeletion (ids ++ [id]))
  | _, _ => none

/-- Modelled from the spec: the greedy fold of §4.2 — accumulate tasks from
the head until a rule stops the run. -/
def autobatchLoop (acc : BatchKind) :
    List (TaskId × KindWithContent) → BatchKind
  | [] => acc
  | (id, kind) :: rest =>
    match autobatchAccumulate acc id kind with
    | some acc2 => autobatchLoop acc2 rest
    | none => acc

/-- Modelled from the spec: the autobatcher — "pure function over a sequence
of (task-id, task-kind) pairs; returns a batch descriptor and a 'must create
index' flag or nothing" (§2, §4.2). -/
def autobatch (enqueued : List (TaskId × KindWithContent))
    (index_already_exists : Bool) : Option (BatchKind × Bool) :=
  match enqueued with
  | [] => none
  | (id, kind) :: rest =>
    match autobatchStart id kind index_already_exists with
    | none => none
    | some (acc, must_create, keep) =>
        if keep then some (autobatchLoop acc rest, must_create)
        else some (acc, must_create)

/-- `IndexOperation` (batch.rs): a batch of tasks operating on one index. -/
inductive IndexOperation : Type
  | documentImport (index_uid : String) (primary_key : Option String)
      (method : IndexDocumentsMethod) (documents_counts : List ℕ)
      (content_files : List Uuid) (tasks : List Task)
  | documentDeletion (index_uid : String) (documents : List String)
      (tasks : List Task)
  | documentClear (index_uid : String) (tasks : List Task)
  | settings (index_uid : String)
      (settings : List (Bool × SettingsPayload)) (tasks : List Task)
  | documentClearAndSetting (index_uid : String) (cleared_tasks : List Task)
      (settings : List (Bool × SettingsPayload)) (settings_tasks : List Task)
  | settingsAndDocumentImport (index_uid : String)
      (primary_key : Option String) (method : IndexDocumentsMethod)
      (documents_counts : List ℕ) (content_files : List Uuid)
      (document_import_tasks : List Task)
      (settings : List (Bool × SettingsPayload)) (settings_tasks : List Task)
deriving DecidableEq

/-- `Batch` (batch.rs): a combination of tasks that can be processed at
once. -/
inductive Batch : Type
  | taskCancelation (task : Task)
  | taskDeletion (task : Task)
  | snapshot (tasks : List Task)
  | dump (task : Task)
  | indexOperation (op : IndexOperation) (must_create_index : Bool)
  | indexCreation (index_uid : String) (primary_key : Option String)
      (task : Task)
  | indexUpdate (index_uid : String) (primary_key : Option String)
      (task : Task)
  | indexDeletion (index_uid : String) (tasks : List Task)
      (index_has_been_created : Bool)
  | indexSwap (task : Task)
deriving DecidableEq

/-- `Batch::ids` (batch.rs): the task ids associated with a batch; for the
two combined index operations, import/cleared tasks are chained before the
settings tasks. -/
def Batch.ids : Batch → List TaskId
  | .taskCancelation task => [task.uid]
  | .taskDeletion task => [task.uid]
  | .snapshot tasks => tasks.map Task.uid
  | .dump task => [task.uid]
  | .indexOperation op _ =>
    match op with
    | .documentImport _ _ _ _ _ tasks => tasks.map Task.uid
    | .documentDeletion _ _ tasks => tasks.map Task.uid
    | .documentClear _ tasks => tasks.map Task.uid
    | .settings _ _ tasks => tasks.map Task.uid
    | .documentClearAndSetting _ cleared _ settings_tasks =>
        (cleared ++ settings_tasks).map Task.uid
    | .settingsAndDocumentImport _ _ _ _ _ import_tasks _ settings_tasks =>
        (import_tasks ++ settings_tasks).map Task.uid
  | .indexCreation _ _ task => [task.uid]
  | .indexUpdate _ _ task => [task.uid]
  | .indexDeletion _ tasks _ => tasks.map Task.uid
  | .indexSwap task => [task.uid]

/-- The `primary_key` extraction from `tasks[0]` of the `DocumentImport` arm
of `create_next_batch_index` (batch.rs): indexing an empty vector panics and
a non-addition head is `unreachable!`; both are modelled as `assertionFailed`
errors. -/
def importHeadPk : List Task → Except SchedError (Option String)
  | [] => .error (.assertionFailed "tasks[0] out of bounds")
  | t0 :: _ =>
    match t0.kind with
    | .documentAdditionOrUpdate _ primary_key _ _ _ _ => .ok primary_key
    | _ => .error (.assertionFailed "unreachable: import head kind")

/-- The `(index_uid, primary_key)` extraction of the `IndexCreation` arm of
`create_next_batch_index` (batch.rs). -/
def creationPayload (task : Task) :
    Except SchedError (String × Option String) :=
  match task.kind with
  | .indexCreation index_uid primary_key => .ok (index_uid, primary_key)
  | _ => .error (.assertionFailed "unreachable: creation kind")

/-- The `primary_key` extraction of the `IndexUpdate` arm of
`create_next_batch_index` (batch.rs). -/
def updatePayload (task : Task) : Except SchedError (Option String) :=
  match task.kind with
  | .indexUpdate _ primary_key => .ok primary_key
  | _ => .error (.assertionFailed "unreachable: update kind")

/-- The `documents_counts`/`content_files` collection loop of the
`DocumentImport` arm of `create_next_batch_index` (batch.rs): every task must
be a `DocumentAdditionOrUpdate` (`unreachable!` otherwise, modelled as an
`assertionFailed` error). -/
def collectImport : List Task → Except SchedError (List ℕ × List Uuid)
  | [] => .ok ([], [])
  | t :: rest =>
    match t.kind with
    | .documentAdditionOrUpdate _ _ _ content_file documents_count _ => do
        let dccf ← collectImport rest
        .ok (documents_count :: dccf.1, content_file :: dccf.2)
    | _ => .error (.assertionFailed "unreachable: non-addition in import")

/-- The `documents` collection loop of the `DocumentDeletion` arm of
`create_next_batch_index` (batch.rs): concatenates each task's
`documents_ids` in order. -/
def collectDeletionDocs : List Task → Except SchedError (List String)
  | [] => .ok []
  | t :: rest =>
    match t.kind with
    | .documentDeletion _ documents_ids => do
        let docs ← collectDeletionDocs rest
        .ok (documents_ids ++ docs)
    | _ => .error (.assertionFailed "unreachable: non-deletion in deletion")

/-- The `settings` collection loop of the `Settings` arm of
`create_next_batch_index` (batch.rs): collects `(is_deletion, new_settings)`
in order. -/
def collectSettings :
    List Task → Except SchedError (List (Bool × SettingsPayload))
  | [] => .ok []
  | t :: rest =>
    match t.kind with
    | .settingsUpdate _ new_settings is_deletion _ => do
        let ss ← collectSettings rest
        .ok ((is_deletion, new_settings) :: ss)
    | _ => .error (.assertionFailed "unreachable: non-settings in settings")

/-- `IndexScheduler::create_next_batch_index` (batch.rs): hydrate a
`BatchKind` into a `Batch` by reading its tasks from the store.  The
source's recursive `ClearAndSettings` / `SettingsAndDocumentImport` arms
(which re-enter the builder on their settings/import/clear components) are
inlined; the evaluation order (settings first, then import) is preserved. -/
def Scheduler.create_next_batch_index (s : Scheduler) (index_uid : String)
    (batch : BatchKind) (must_create_index : Bool) :
    Except SchedError (Option Batch) :=
  match batch with
  | .documentClear ids => do
      let tasks ← s.get_existing_tasks ids
      pure (some (.indexOperation (.documentClear index_uid tasks)
        must_create_index))
  | .documentImport method _ import_ids => do
      let tasks ← s.get_existing_tasks import_ids
      let primary_key ← importHeadPk tasks
      let dccf ← collectImport tasks
      pure (some (.indexOperation (.documentImport index_uid
        primary_key method dccf.1 dccf.2 tasks) must_create_index))
  | .documentDeletion deletion_ids => do
      let tasks ← s.get_existing_tasks deletion_ids
      let documents ← collectDeletionDocs tasks
      pure (some (.indexOperation
        (.documentDeletion index_uid documents tasks) must_create_index))
  | .settings settings_ids _ => do
      let tasks ← s.get_existing_tasks settings_ids
      let settings ← collectSettings tasks
      pure (some (.indexOperation (.settings index_uid settings tasks)
        must_create_index))
  | .clearAndSettings other settings_ids _ => do
      let settings_tasks ← s.get_existing_tasks settings_ids
      let settings ← collectSettings settings_tasks
      let cleared_tasks ← s.get_existing_tasks other
      pure (some (.indexOperation (.documentClearAndSetting index_uid
        cleared_tasks settings settings_tasks) must_create_index))
  | .settingsAndDocumentImport settings_ids method _ import_ids => do
      let settings_tasks ← s.get_existing_tasks settings_ids
      let settings ← collectSettings settings_tasks
      let tasks ← s.get_existing_tasks import_ids
      let primary_key ← importHeadPk tasks
      let dccf ← collectImport tasks
      pure (some (.indexOperation (.settingsAndDocumentImport
        index_uid primary_key method dccf.1 dccf.2 tasks settings
        settings_tasks) must_create_index))
  | .indexCreation id => do
      let task ← getTaskOrCorrupt s id
      let payload ← creationPayload task
      pure (some (.indexCreation payload.1 payload.2 task))
  | .indexUpdate id => do
      let task ← getTaskOrCorrupt s id
      let primary_key ← updatePayload task
      pure (some (.indexUpdate index_uid primary_key task))
  | .indexDeletion ids => do
      let tasks ← s.get_existing_tasks ids
      pure (some (.indexDeletion index_uid tasks must_create_index))
  | .indexSwap id => do
      let task ← getTaskOrCorrupt s id
      pure (some (.indexSwap task))

/-- `RoaringBitmap::max`/`min` (`Option`-valued). -/
def bmMax (bm : Finset ℕ) : Option ℕ :=
  if h : bm.Nonempty then some (bm.max' h) else none

def bmMin (bm : Finset ℕ) : Option ℕ :=
  if h : bm.Nonempty then some (bm.min' h) else none

/-- `IndexScheduler::create_next_batch` (batch.rs): the five-step selection —
1. the *last* enqueued `TaskCancelation`; 2. the *next* enqueued
`TaskDeletion`; 3. all enqueued `Snapshot` tasks as one batch; 4. the *next*
enqueued `DumpExport`; 5. the per-index batch of the oldest enqueued task's
index, passing `(uid, kind)` pairs to the autobatcher — only one pair when
`autobatching_enabled` is false (`take(1)`; `take(usize::MAX)` is the
identity on any actual queue).  `task.indexes().unwrap()[0]` panics
(`assertionFailed`) when the oldest task carries no index; the mapper
existence check is `IndexMapper::exists`, modelled on the mapper table. -/
def Scheduler.create_next_batch (s : Scheduler) :
    Except SchedError (Option Batch) :=
  let enqueued := s.get_status .enqueued
  match bmMax (s.get_kind .taskCancelation ∩ enqueued) with
  | some task_id => do
    let task ← getTaskOrCorrupt s task_id
    pure (some (.taskCancelation task))
  | none =>
  match bmMin (s.get_kind .taskDeletion ∩ enqueued) with
  | some task_id => do
    let task ← getTaskOrCorrupt s task_id
    pure (some (.taskDeletion task))
  | none =>
  if ¬ (s.get_kind .snapshot ∩ enqueued) = ∅ then do
    let tasks ← s.get_existing_tasks
      (bitmapToList (s.get_kind .snapshot ∩ enqueued))
    pure (some (.snapshot tasks))
  else
  match bmMin (s.get_kind .dumpExport ∩ enqueued) with
  | some to_dump => do
    let task ← getTaskOrCorrupt s to_dump
    pure (some (.dump task))
  | none =>
  match bmMin enqueued with
  | none => pure none
  | some task_id => do
    let task ← getTaskOrCorrupt s task_id
    match task.indexes with
    | none => throw (.assertionFailed "task.indexes().unwrap()")
    | some [] => throw (.assertionFailed "task.indexes()[0] out of bounds")
    | some (index_name :: _) => do
      let index_already_exists := (alGet s.indexMapper index_name).isSome
      let index_tasks := s.index_tasks index_name ∩ enqueued
      let selected := match s.autobatching_enabled with
        | true => bitmapToList index_tasks
        | false => (bitmapToList index_tasks).take 1
      let pairs ← selected.mapM (fun tid =>
        (getTaskOrCorrupt s tid).map (fun t => (t.uid, t.kind)))
      match autobatch pairs index_already_exists with
      | some (batchkind, create_index) =>
          s.create_next_batch_index index_name batchkind create_index
      | none => pure none

/-! ## Theorems: library lemmas about the table model -/

theorem alGet_alPut_self {κ β : Type} [DecidableEq κ]
    (m : List (κ × β)) (k : κ) (v : β) : alGet (alPut m k v) k = some v := by
  induction m with
  | nil => simp [alGet, alPut]
  | cons hd tl ih =>
    by_cases h : hd.1 = k
    · simp [alGet, alPut, h]
    · simp [alGet, alPut, h, ih]

theorem alGet_alPut_ne {κ β : Type} [DecidableEq κ]
    (m : List (κ × β)) (k k' : κ) (v : β) (h : k' ≠ k) :
    alGet (alPut m k v) k' = alGet m k' := by
  have h2 : k ≠ k' := Ne.symm h
  induction m with
  | nil => simp [alGet, alPut, h2]
  | cons hd tl ih =>
    by_cases hh : hd.1 = k
    · simp [alGet, alPut, hh, h2, ne_of_eq_of_ne hh h2]
    · by_cases hh' : hd.1 = k'
      · simp [alGet, alPut, hh, hh', h]
      · simp [alGet, alPut, hh, hh', ih]

theorem alGet_alDelete_self {κ β : Type} [DecidableEq κ]
    (m : List (κ × β)) (k : κ) : alGet (alDelete m k) k = none := by
  induction m with
  | nil => simp [alGet, alDelete]
  | cons hd tl ih =>
    by_cases h : hd.1 = k
    · simp [alDelete, h, ih]
    · simp [alGet, alDelete, h, ih]

theorem alGet_alDelete_ne {κ β : Type} [DecidableEq κ]
    (m : List (κ × β)) (k k' : κ) (h : k' ≠ k) :
    alGet (alDelete m k) k' = alGet m k' := by
  have h2 : k ≠ k' := Ne.symm h
  induction m with
  | nil => simp [alDelete]
  | cons hd tl ih =>
    by_cases hh : hd.1 = k
    · simp [alGet, alDelete, hh, h2, ne_of_eq_of_ne hh h2, ih]
    · by_cases hh' : hd.1 = k'
      · simp [alGet, alDelete, hh, hh', h]
      · simp [alGet, alDelete, hh, hh', ih]

/-! ## Theorems: claim C10 (empty bitmaps are never stored) -/

/-- **C10.** No key in the `index_tasks` table or in the timestamp tables ever
maps to an empty bitmap after an update: `update_index` and
`remove_task_datetime` delete the key when the updated bitmap is empty,
store the new bitmap otherwise, and leave every other key untouched. -/
theorem update_index_and_remove_task_datetime_never_store_empty
    (s : Scheduler) (index : String) (f : Finset ℕ → Finset ℕ)
    (db : List (Timestamp × Finset ℕ)) (time : Timestamp) (task_id : TaskId) :
    (alGet (s.update_index index f).indexTasksDb index =
      (if f (s.index_tasks index) = ∅ then none
       else some (f (s.index_tasks index)))) ∧
    (∀ index', index' ≠ index →
      alGet (s.update_index index f).indexTasksDb index' =
        alGet s.indexTasksDb index') ∧
    (alGet (s.update_index index f).indexTasksDb index ≠ some ∅) ∧
    (alGet db time = none → remove_task_datetime db time task_id = db) ∧
    (∀ bm, alGet db time = some bm →
      alGet (remove_task_datetime db time task_id) time =
        (if bm.erase task_id = ∅ then none else some (bm.erase task_id))) ∧
    (∀ time', time' ≠ time →
      alGet (remove_task_datetime db time task_id) time' = alGet db time') ∧
    (alGet (remove_task_datetime db time task_id) time ≠ some ∅) := by
  refine ⟨?_, ?_, ?_, ?_, ?_, ?_, ?_⟩
  · unfold Scheduler.update_index
    by_cases h : f (s.index_tasks index) = ∅
    · simp [h, alGet_alDelete_self]
    · simp [h, alGet_alPut_self]
  · intro index' hne
    unfold Scheduler.update_index
    by_cases h : f (s.index_tasks index) = ∅
    · simp [h, alGet_alDelete_ne _ _ _ hne]
    · simp [h, alGet_alPut_ne _ _ _ _ hne]
  · unfold Scheduler.update_index
    by_cases h : f (s.index_tasks index) = ∅
    · simp [h, alGet_alDelete_self]
    · simp [h, alGet_alPut_self]
  · intro h
    unfold remove_task_datetime
    simp [h]
  · intro bm hbm
    unfold remove_task_datetime
    rw [hbm]
    by_cases h : bm.erase task_id = ∅
    · simp [h, alGet_alDelete_self]
    · simp [h, alGet_alPut_self]
  · intro time' hne
    unfold remove_task_datetime
    cases hbm : alGet db time with
    | none => rfl
    | some bm =>
      by_cases h : bm.erase task_id = ∅
      · simp [h, alGet_alDelete_ne _ _ _ hne]
      · simp [h, alGet_alPut_ne _ _ _ _ hne]
  · unfold remove_task_datetime
    cases hbm : alGet db time with
    | none => simp [hbm]
    | some bm =>
      by_cases h : bm.erase task_id = ∅
      · simp [h, alGet_alDelete_self]
      · simp [h, alGet_alPut_self]

/-- Witness for C10 at a concrete input: removing the last task id of a
timestamp key deletes the key, and emptying an `index_tasks` bitmap deletes
the index key. -/
theorem update_index_and_remove_task_datetime_never_store_empty_witness :
    alGet (remove_task_datetime [((5 : ℤ), ({3} : Finset ℕ))] 5 3) 5 = none ∧
    alGet
      (Scheduler.update_index
        ⟨[], [], [], [("books", ({3} : Finset ℕ))], [], [], [], ∅, [], true⟩
        "books" (fun bm => bm.erase 3)).indexTasksDb "books" = none := by
  constructor
  · have h :=
      (update_index_and_remove_task_datetime_never_store_empty
        ⟨[], [], [], [], [], [], [], ∅, [], true⟩ "books" id
        [((5 : ℤ), ({3} : Finset ℕ))] 5 3).2.2.2.2.1 {3} (by decide)
    rw [h]
    decide
  · have h :=
      (update_index_and_remove_task_datetime_never_store_empty
        ⟨[], [], [], [("books", ({3} : Finset ℕ))], [], [], [], ∅, [], true⟩
        "books" (fun bm => bm.erase 3) [] 5 3).1
    rw [h]
    have : Scheduler.index_tasks
        ⟨[], [], [], [("books", ({3} : Finset ℕ))], [], [], [], ∅, [], true⟩
        "books" = {3} := by decide
    rw [this]
    decide

/-! ## Theorems: claim C9 (datetime filtering) -/

theorem mem_foldl_union (u : ℕ) (db : List (Timestamp × Finset ℕ))
    (c : Timestamp → Bool) (init : Finset ℕ) :
    (u ∈ db.foldl (fun acc p => if c p.1 then acc ∪ p.2 else acc) init) ↔
      u ∈ init ∨ ∃ p ∈ db, c p.1 ∧ u ∈ p.2 := by
  induction db generalizing init with
  | nil => simp
  | cons hd tl ih =>
    simp only [List.foldl_cons, ih]
    by_cases h : c hd.1
    · simp only [h, if_pos, Finset.mem_union]
      constructor
      · rintro (⟨hu | hu⟩ | ⟨p, hp, hc, hu⟩)
        · exact Or.inl hu
        · exact Or.inr ⟨hd, by simp, h, hu⟩
        · exact Or.inr ⟨p, by simp [hp], hc, hu⟩
      · rintro (hu | ⟨p, hp, hc, hu⟩)
        · exact Or.inl (Or.inl hu)
        · rcases List.mem_cons.mp hp with rfl | hp
          · exact Or.inl (Or.inr hu)
          · exact Or.inr ⟨p, hp, hc, hu⟩
    · simp only [h, if_neg, Bool.false_eq_true, not_false_iff]
      constructor
      · rintro (hu | ⟨p, hp, hc, hu⟩)
        · exact Or.inl hu
        · exact Or.inr ⟨p, by simp [hp], hc, hu⟩
      · rintro (hu | ⟨p, hp, hc, hu⟩)
        · exact Or.inl hu
        · rcases List.mem_cons.mp hp with rfl | hp
          · exact absurd hc h
          · exact Or.inr ⟨p, hp, hc, hu⟩

/-- **C9.** `keep_tasks_within_datetimes` leaves the bitmap unchanged when
both bounds are `None`, and otherwise retains exactly the task ids whose
recorded timestamp `t` (a key of the streamed time-indexed database whose
bitmap contains the id) satisfies `after < t` and `t < before` at nanosecond
resolution, both bounds exclusive and `None` meaning unbounded. -/
theorem keep_tasks_within_datetimes_spec (db : List (Timestamp × Finset ℕ))
    (tasks : Finset ℕ) (after before : Option Timestamp) :
    (after = none ∧ before = none →
      keep_tasks_within_datetimes db tasks after before = tasks) ∧
    (after ≠ none ∨ before ≠ none →
      ∀ u, u ∈ keep_tasks_within_datetimes db tasks after before ↔
        u ∈ tasks ∧ ∃ p ∈ db, u ∈ p.2 ∧
          (∀ a, after = some a → a < p.1) ∧
          (∀ b, before = some b → p.1 < b)) := by
  constructor
  · rintro ⟨rfl, rfl⟩
    rfl
  · intro hne u
    have key : ∀ (c : Timestamp → Bool),
        (∀ t, c t = true ↔
          ((∀ a, after = some a → a < t) ∧ (∀ b, before = some b → t < b))) →
        (u ∈ tasks ∩ db.foldl
            (fun acc p => if c p.1 then acc ∪ p.2 else acc) ∅ ↔
          u ∈ tasks ∧ ∃ p ∈ db, u ∈ p.2 ∧
            (∀ a, after = some a → a < p.1) ∧
            (∀ b, before = some b → p.1 < b)) := by
      intro c hc
      rw [Finset.mem_inter, mem_foldl_union]
      simp only [Finset.not_mem_empty, false_or]
      constructor
      · rintro ⟨hu, p, hp, hcp, hup⟩
        exact ⟨hu, p, hp, hup, (hc p.1).mp hcp⟩
      · rintro ⟨hu, p, hp, hup, hb⟩
        exact ⟨hu, p, hp, (hc p.1).mpr hb, hup⟩
    rcases after with _ | a
    · rcases before with _ | b
      · simp at hne
      · exact key (fun t => true && decide (t < b)) (fun t => by simp)
    · rcases before with _ | b
      · exact key (fun t => decide (a < t) && true) (fun t => by simp)
      · exact key (fun t => decide (a < t) && decide (t < b)) (fun t => by simp)

/-- Witness for C9 at a concrete input: with `after = 5` and `before = 15`,
the id recorded at nanosecond 10 survives the filter. -/
theorem keep_tasks_within_datetimes_spec_witness :
    1 ∈ keep_tasks_within_datetimes
      [((10 : ℤ), ({1} : Finset ℕ)), (20, {2})] {1, 2, 3}
      (some 5) (some 15) := by
  refine ((keep_tasks_within_datetimes_spec
      [((10 : ℤ), ({1} : Finset ℕ)), (20, {2})] {1, 2, 3}
      (some 5) (some 15)).2 (Or.inl (by decide)) 1).mpr ?_
  refine ⟨by decide, ((10 : ℤ), ({1} : Finset ℕ)), by decide, by decide,
    ?_, ?_⟩
  · intro a ha
    cases ha
    decide
  · intro b hb
    cases hb
    decide

/-! ## Theorems: claim C6 (update_task) -/

theorem get_status_update_status_self (s : Scheduler) (st : Status)
    (f : Finset ℕ → Finset ℕ) :
    (s.update_status st f).get_status st = f (s.get_status st) := by
  simp [Scheduler.update_status, Scheduler.put_status, Scheduler.get_status,
    alGet_alPut_self]

theorem get_status_update_status_ne (s : Scheduler) (st st' : Status)
    (f : Finset ℕ → Finset ℕ) (h : st' ≠ st) :
    (s.update_status st f).get_status st' = s.get_status st' := by
  simp [Scheduler.update_status, Scheduler.put_status, Scheduler.get_status,
    alGet_alPut_ne _ _ _ _ h]

theorem get_kind_update_kind_self (s : Scheduler) (k : Kind)
    (f : Finset ℕ → Finset ℕ) :
    (s.update_kind k f).get_kind k = f (s.get_kind k) := by
  simp [Scheduler.update_kind, Scheduler.put_kind, Scheduler.get_kind,
    alGet_alPut_self]

theorem get_kind_update_kind_ne (s : Scheduler) (k k' : Kind)
    (f : Finset ℕ → Finset ℕ) (h : k' ≠ k) :
    (s.update_kind k f).get_kind k' = s.get_kind k' := by
  simp [Scheduler.update_kind, Scheduler.put_kind, Scheduler.get_kind,
    alGet_alPut_ne _ _ _ _ h]

/-- **C6.** `update_task`, applied to a task whose uid exists in the store,
fails an assertion when `enqueued_at` is changed, or when an already-set
`started_at` (resp. `finished_at`) is changed; otherwise it moves the uid
between the status and kind bitmaps when those fields changed, inserts a
newly-set `started_at`/`finished_at` into the corresponding
timestamp-indexed table, and rewrites the record. -/
theorem update_task_spec (s : Scheduler) (task old_task : Task)
    (hold : s.get_task task.uid = some old_task) :
    (old_task = task → s.update_task task = .ok s) ∧
    (old_task ≠ task → old_task.enqueued_at ≠ task.enqueued_at →
      s.update_task task =
        .error (.assertionFailed "Cannot update a task's enqueued_at time")) ∧
    (old_task ≠ task → old_task.enqueued_at = task.enqueued_at →
      old_task.started_at ≠ task.started_at → old_task.started_at ≠ none →
      s.update_task task =
        .error (.assertionFailed "Cannot update a task's started_at time")) ∧
    (old_task ≠ task → old_task.enqueued_at = task.enqueued_at →
      (old_task.started_at = task.started_at ∨ old_task.started_at = none) →
      old_task.finished_at ≠ task.finished_at → old_task.finished_at ≠ none →
      s.update_task task =
        .error (.assertionFailed "Cannot update a task's finished_at time")) ∧
    (old_task.enqueued_at = task.enqueued_at →
      (old_task.started_at = task.started_at ∨ old_task.started_at = none) →
      (old_task.finished_at = task.finished_at ∨ old_task.finished_at = none) →
      ∃ s', s.update_task task = .ok s' ∧
        s'.get_task task.uid = some task ∧
        (∀ u, u ≠ task.uid → s'.get_task u = s.get_task u) ∧
        (old_task.status = task.status →
          ∀ st, s'.get_status st = s.get_status st) ∧
        (old_task.status ≠ task.status →
          s'.get_status old_task.status =
              (s.get_status old_task.status).erase task.uid ∧
          s'.get_status task.status =
              insert task.uid (s.get_status task.status) ∧
          (∀ st, st ≠ old_task.status → st ≠ task.status →
            s'.get_status st = s.get_status st)) ∧
        (old_task.kind.as_kind = task.kind.as_kind →
          ∀ k, s'.get_kind k = s.get_kind k) ∧
        (old_task.kind.as_kind ≠ task.kind.as_kind →
          s'.get_kind old_task.kind.as_kind =
              (s.get_kind old_task.kind.as_kind).erase task.uid ∧
          s'.get_kind task.kind.as_kind =
              insert task.uid (s.get_kind task.kind.as_kind) ∧
          (∀ k, k ≠ old_task.kind.as_kind → k ≠ task.kind.as_kind →
            s'.get_kind k = s.get_kind k)) ∧
        (old_task.started_at = task.started_at →
          s'.startedAtDb = s.startedAtDb) ∧
        (old_task.started_at ≠ task.started_at →
          ∀ ts, task.started_at = some ts →
            s'.startedAtDb = insert_task_datetime s.startedAtDb ts task.uid) ∧
        (old_task.finished_at = task.finished_at →
          s'.finishedAtDb = s.finishedAtDb) ∧
        (old_task.finished_at ≠ task.finished_at →
          ∀ ts, task.finished_at = some ts →
            s'.finishedAtDb = insert_task_datetime s.finishedAtDb ts task.uid) ∧
        s'.enqueuedAtDb = s.enqueuedAtDb) := by
  refine ⟨?_, ?_, ?_, ?_, ?_⟩
  · intro heq
    simp [Scheduler.update_task, hold, heq]
  · intro hne henq
    simp [Scheduler.update_task, hold, hne, henq]
  · intro hne henq hst hstn
    simp [Scheduler.update_task, hold, hne, henq, hst, hstn]
  · intro hne henq hstok hfne hfnn
    have hst2 : ¬(old_task.started_at ≠ task.started_at ∧
        old_task.started_at ≠ none) := by
      rcases hstok with h | h <;> simp [h]
    simp [Scheduler.update_task, hold, hne, henq, hst2, hfne, hfnn]
  · intro henq hstok hfinok
    by_cases heq : old_task = task
    · refine ⟨s, by simp [Scheduler.update_task, hold, heq], heq ▸ hold,
        fun _ _ => rfl, fun _ _ => rfl,
        fun h => absurd (congrArg Task.status heq) h,
        fun _ _ => rfl,
        fun h => absurd (congrArg (fun t => t.kind.as_kind) heq) h,
        fun _ => rfl,
        fun h => absurd (congrArg Task.started_at heq) h,
        fun _ => rfl,
        fun h => absurd (congrArg Task.finished_at heq) h,
        rfl⟩
    · have hst2 : ¬(old_task.started_at ≠ task.started_at ∧
          old_task.started_at ≠ none) := by
        rcases hstok with h | h <;> simp [h]
      have hfin2 : ¬(old_task.finished_at ≠ task.finished_at ∧
          old_task.finished_at ≠ none) := by
        rcases hfinok with h | h <;> simp [h]
      refine ⟨
        (let s1 := if old_task.status ≠ task.status then
            (s.update_status old_task.status
                (fun bitmap => bitmap.erase task.uid)).update_status
              task.status (fun bitmap => insert task.uid bitmap)
          else s
        let s2 := if old_task.kind.as_kind ≠ task.kind.as_kind then
            (s1.update_kind old_task.kind.as_kind
                (fun bitmap => bitmap.erase task.uid)).update_kind
              task.kind.as_kind (fun bitmap => insert task.uid bitmap)
          else s1
        let s3 := if old_task.started_at ≠ task.started_at then
            match task.started_at with
            | some started_at =>
                { s2 with startedAtDb :=
                    insert_task_datetime s2.startedAtDb started_at task.uid }
            | none => s2
          else s2
        let s4 := if old_task.finished_at ≠ task.finished_at then
            match task.finished_at with
            | some finished_at =>
                { s3 with finishedAtDb :=
                    insert_task_datetime s3.finishedAtDb finished_at task.uid }
            | none => s3
          else s3
        { s4 with all_tasks := alPut s4.all_tasks task.uid task }),
        ?_, ?_, ?_, ?_, ?_, ?_, ?_, ?_, ?_, ?_, ?_, ?_⟩
      · simp only [Scheduler.update_task, hold, if_neg heq,
          if_neg (not_not_intro henq), if_neg hst2, if_neg hfin2]
      · cases hts : task.started_at <;> cases htf : task.finished_at <;>
          simp [Scheduler.get_task, alGet_alPut_self]
      · intro u hu
        cases hts : task.started_at <;> cases htf : task.finished_at <;>
          simp [Scheduler.get_task, alGet_alPut_ne _ _ _ _ hu,
            apply_ite Scheduler.all_tasks, Scheduler.update_status,
            Scheduler.put_status, Scheduler.update_kind, Scheduler.put_kind]
      · intro hs st
        cases hts : task.started_at <;> cases htf : task.finished_at <;>
          simp [Scheduler.get_status, hs, apply_ite Scheduler.statusDb,
            Scheduler.update_status, Scheduler.put_status,
            Scheduler.update_kind, Scheduler.put_kind]
      · intro hs
        have h1 : task.status ≠ old_task.status := Ne.symm hs
        refine ⟨?_, ?_, ?_⟩
        · cases hts : task.started_at <;> cases htf : task.finished_at <;>
            simp [Scheduler.get_status, hs, apply_ite Scheduler.statusDb,
              Scheduler.update_status, Scheduler.put_status,
              Scheduler.update_kind, Scheduler.put_kind,
              alGet_alPut_ne _ _ _ _ hs, alGet_alPut_self]
        · cases hts : task.started_at <;> cases htf : task.finished_at <;>
            simp [Scheduler.get_status, hs, apply_ite Scheduler.statusDb,
              Scheduler.update_status, Scheduler.put_status,
              Scheduler.update_kind, Scheduler.put_kind,
              alGet_alPut_ne _ _ _ _ h1, alGet_alPut_self]
        · intro st hso hsn
          cases hts : task.started_at <;> cases htf : task.finished_at <;>
            simp [Scheduler.get_status, hs, apply_ite Scheduler.statusDb,
              Scheduler.update_status, Scheduler.put_status,
              Scheduler.update_kind, Scheduler.put_kind,
              alGet_alPut_ne _ _ _ _ hso, alGet_alPut_ne _ _ _ _ hsn]
      · intro hk k
        cases hts : task.started_at <;> cases htf : task.finished_at <;>
          simp [Scheduler.get_kind, hk, apply_ite Scheduler.kindDb,
            Scheduler.update_status, Scheduler.put_status,
            Scheduler.update_kind, Scheduler.put_kind]
      · intro hk
        have h1 : task.kind.as_kind ≠ old_task.kind.as_kind := Ne.symm hk
        refine ⟨?_, ?_, ?_⟩
        · cases hts : task.started_at <;> cases htf : task.finished_at <;>
            simp [Scheduler.get_kind, hk, apply_ite Scheduler.kindDb,
              Scheduler.update_status, Scheduler.put_status,
              Scheduler.update_kind, Scheduler.put_kind,
              alGet_alPut_ne _ _ _ _ hk, alGet_alPut_self]
        · cases hts : task.started_at <;> cases htf : task.finished_at <;>
            simp [Scheduler.get_kind, hk, apply_ite Scheduler.kindDb,
              Scheduler.update_status, Scheduler.put_status,
              Scheduler.update_kind, Scheduler.put_kind,
              alGet_alPut_ne _ _ _ _ h1, alGet_alPut_self]
        · intro k hko hkn
          cases hts : task.started_at <;> cases htf : task.finished_at <;>
            simp [Scheduler.get_kind, hk, apply_ite Scheduler.kindDb,
              Scheduler.update_status, Scheduler.put_status,
              Scheduler.update_kind, Scheduler.put_kind,
              alGet_alPut_ne _ _ _ _ hko, alGet_alPut_ne _ _ _ _ hkn]
      · intro hsa
        cases htf : task.finished_at <;>
          simp [hsa, apply_ite Scheduler.startedAtDb,
            Scheduler.update_status, Scheduler.put_status,
            Scheduler.update_kind, Scheduler.put_kind]
      · intro hsa ts hts
        have hsa2 : old_task.started_at ≠ some ts := hts ▸ hsa
        cases htf : task.finished_at <;>
          simp [hsa, hts, hsa2, apply_ite Scheduler.startedAtDb,
            Scheduler.update_status, Scheduler.put_status,
            Scheduler.update_kind, Scheduler.put_kind]
      · intro hfa
        cases hts : task.started_at <;>
          simp [hfa, apply_ite Scheduler.finishedAtDb,
            Scheduler.update_status, Scheduler.put_status,
            Scheduler.update_kind, Scheduler.put_kind]
      · intro hfa ts htf
        have hfa2 : old_task.finished_at ≠ some ts := htf ▸ hfa
        cases hts : task.started_at <;>
          simp [hfa, htf, hfa2, apply_ite Scheduler.finishedAtDb,
            Scheduler.update_status, Scheduler.put_status,
            Scheduler.update_kind, Scheduler.put_kind]
      · cases hts : task.started_at <;> cases htf : task.finished_at <;>
          simp [apply_ite Scheduler.enqueuedAtDb,
            Scheduler.update_status, Scheduler.put_status,
            Scheduler.update_kind, Scheduler.put_kind]

/-- Witness for C6 at a concrete input: marking an enqueued task succeeded,
with `started_at`/`finished_at` freshly set, goes through and rewrites the
record. -/
theorem update_task_spec_witness :
    ∃ s', Scheduler.update_task
        ⟨[(0, ⟨0, 100, none, none, none, none, none, .enqueued,
            .documentClear "a"⟩)],
         [(Status.enqueued, {0})], [(Kind.documentClear, {0})], [("a", {0})],
         [((100 : ℤ), {0})], [], [], ∅, [], true⟩
        ⟨0, 100, some 200, some 300, none, none, none, .succeeded,
          .documentClear "a"⟩ = .ok s' ∧
      s'.get_task 0 = some ⟨0, 100, some 200, some 300, none, none, none,
        .succeeded, .documentClear "a"⟩ := by
  obtain ⟨s', hrun, hget, -⟩ :=
    (update_task_spec
      ⟨[(0, ⟨0, 100, none, none, none, none, none, .enqueued,
          .documentClear "a"⟩)],
       [(Status.enqueued, {0})], [(Kind.documentClear, {0})], [("a", {0})],
       [((100 : ℤ), {0})], [], [], ∅, [], true⟩
      ⟨0, 100, some 200, some 300, none, none, none, .succeeded,
        .documentClear "a"⟩
      ⟨0, 100, none, none, none, none, none, .enqueued, .documentClear "a"⟩
      rfl).2.2.2.2 rfl (Or.inr rfl) (Or.inr rfl)
  exact ⟨s', hrun, hget⟩

/-! ## Theorems: claim C8 (the DocumentClear arm) -/

theorem clearTasksLoop_length (count : ℕ) (found : Bool) (tasks : List Task) :
    (clearTasksLoop count found tasks).length = tasks.length := by
  induction tasks generalizing found with
  | nil => rfl
  | cons hd tl ih =>
    cases hk : hd.kind <;> simp [clearTasksLoop, hk, ih]

theorem clearTasksLoop_getElem (count : ℕ) (found : Bool) (tasks : List Task)
    (i : ℕ) :
    (clearTasksLoop count found tasks)[i]? = (tasks[i]?).map (fun task =>
      if task.kind.as_kind = .documentClear then
        { task with
            status := .succeeded
            details := some (.clearAll (some
            (if found || (tasks.take i).any
                (fun t => decide (t.kind.as_kind = .documentClear)) then 0
             else count))) }
      else
        { task with
            status := .succeeded
            details := task.kind.default_details }) := by
  induction tasks generalizing found i with
  | nil => simp [clearTasksLoop]
  | cons hd tl ih =>
    cases i with
    | zero =>
      cases hk : hd.kind <;>
        simp [clearTasksLoop, hk, KindWithContent.as_kind]
    | succ n =>
      cases hk : hd.kind <;>
        simp [clearTasksLoop, hk, KindWithContent.as_kind, ih,
          Bool.or_assoc]

/-- **C8 counterexample.** When a `DocumentDeletion` task was merged in front
of the clear, the *first task of the batch* does not receive the full
`deleted_documents` count: it receives its kind's default details
(`deleted_documents = none`), and the count goes to the first
`DocumentClear`-kind task instead. -/
theorem apply_document_clear_counterexample :
    (apply_document_clear 5
      [⟨0, 0, none, none, none, none, none, .enqueued,
          .documentDeletion "a" ["d1"]⟩,
       ⟨1, 0, none, none, none, none, none, .enqueued,
          .documentClear "a"⟩]).map Task.details =
      [some (.documentDeletion 1 none), some (.clearAll (some 5))] ∧
    ((apply_document_clear 5
      [⟨0, 0, none, none, none, none, none, .enqueued,
          .documentDeletion "a" ["d1"]⟩,
       ⟨1, 0, none, none, none, none, none, .enqueued,
          .documentClear "a"⟩]).map Task.details)[0]? ≠
      some (some (.clearAll (some 5))) := by
  constructor
  · rfl
  · decide

/-- **C8 (amended).** Processing a `DocumentClear` index operation marks every
task of the batch `Succeeded`; the first `DocumentClear`-kind task receives
the full `deleted_documents` count and every later `DocumentClear` task
receives 0, while merged tasks of other kinds (such as `DocumentDeletion`
tasks merged with the clear) receive their kind's default details instead of
the count. -/
theorem apply_document_clear_spec (count : ℕ) (tasks : List Task) (i : ℕ) :
    (apply_document_clear count tasks).length = tasks.length ∧
    (apply_document_clear count tasks)[i]? = (tasks[i]?).map (fun task =>
      if task.kind.as_kind = .documentClear then
        { task with
            status := .succeeded
            details := some (.clearAll (some
            (if (tasks.take i).any
                (fun t => decide (t.kind.as_kind = .documentClear)) then 0
             else count))) }
      else
        { task with
            status := .succeeded
            details := task.kind.default_details }) := by
  refine ⟨clearTasksLoop_length count false tasks, ?_⟩
  simpa using clearTasksLoop_getElem count false tasks i

/-! ## Theorems: claim C7 (the IndexDeletion batch) -/

/-- **C7.** Processing an `IndexDeletion` batch sets the `deleted_documents`
detail of the `IndexDeletion` task(s) to the index's `number_of_documents`
(0 when the index is missing); an `IndexNotFound` error from deleting the
index is tolerated iff `index_has_been_created` was true and is otherwise
returned as the batch error; on success every task merged into the batch is
marked `Succeeded`. -/
theorem process_index_deletion_spec (mapper : List (String × ℕ))
    (index_uid : String) (created : Bool) (tasks : List Task) :
    (alGet mapper index_uid = none → created = false →
      process_index_deletion mapper index_uid created tasks =
        .error (.indexNotFound index_uid)) ∧
    (alGet mapper index_uid = none → created = true →
      process_index_deletion mapper index_uid created tasks =
        .ok (mapper, tasks.map (fun task =>
          { task with
              status := .succeeded
              details := if task.kind.as_kind = .indexDeletion then
                  some (.clearAll (some 0))
                else task.kind.default_finished_details }))) ∧
    (∀ n, alGet mapper index_uid = some n →
      process_index_deletion mapper index_uid created tasks =
        .ok (alDelete mapper index_uid, tasks.map (fun task =>
          { task with
              status := .succeeded
              details := if task.kind.as_kind = .indexDeletion then
                  some (.clearAll (some n))
                else task.kind.default_finished_details }))) := by
  refine ⟨?_, ?_, ?_⟩
  · intro h hc
    simp [process_index_deletion, index_mapper_delete, h, hc]
  · intro h hc
    simp only [process_index_deletion, index_mapper_delete, h, hc, if_true]
    refine congrArg (fun l => Except.ok
      ((mapper : List (String × ℕ)), (l : List Task)))
      (List.map_congr_left (fun task _ => ?_))
    cases hk : task.kind <;>
      simp [KindWithContent.as_kind, h]
  · intro n h
    simp only [process_index_deletion, index_mapper_delete, h]
    refine congrArg (fun l => Except.ok
      ((alDelete mapper index_uid : List (String × ℕ)), (l : List Task)))
      (List.map_congr_left (fun task _ => ?_))
    cases hk : task.kind <;>
      simp [KindWithContent.as_kind, h]

/-- Witness for C7 at a concrete input: deleting an existing index with 7
documents marks the `IndexDeletion` task `Succeeded` with
`deleted_documents = 7` and removes the index from the mapper. -/
theorem process_index_deletion_spec_witness :
    process_index_deletion [("books", 7)] "books" false
      [⟨0, 0, none, none, none, none, none, .enqueued,
        .indexDeletion "books"⟩] =
      .ok ([], [⟨0, 0, none, none, none, none,
        some (.clearAll (some 7)), .succeeded, .indexDeletion "books"⟩]) := by
  have h := (process_index_deletion_spec [("books", 7)] "books" false
    [⟨0, 0, none, none, none, none, none, .enqueued,
      .indexDeletion "books"⟩]).2.2 7 rfl
  rw [h]
  rfl

/-! ## Theorems: helper lemmas shared by the batch-executor claims -/

theorem alGet_mem {κ β : Type} [DecidableEq κ] (m : List (κ × β)) (k : κ)
    (v : β) (h : alGet m k = some v) : (k, v) ∈ m := by
  induction m with
  | nil => simp [alGet] at h
  | cons hd tl ih =>
    by_cases hh : hd.1 = k
    · simp only [alGet, hh, if_pos] at h
      obtain rfl : hd.2 = v := Option.some.inj h
      have hhd : hd = (k, hd.2) := Prod.ext hh rfl
      rw [← hhd]
      exact List.mem_cons_self hd tl
    · simp only [alGet, hh, if_neg, if_false] at h
      exact List.mem_cons_of_mem _ (ih h)

theorem mem_bitmapToList (bm : Finset ℕ) (u : ℕ) :
    u ∈ bitmapToList bm ↔ u ∈ bm := by
  unfold bitmapToList
  simp only [List.mem_filter, List.mem_range, decide_eq_true_eq,
    and_iff_right_iff_imp]
  intro hu
  exact Nat.lt_succ_of_le (Finset.le_sup (f := id) hu)

theorem mem_hsInsert {α : Type} [DecidableEq α] (l : List α) (a b : α) :
    b ∈ hsInsert l a ↔ b ∈ l ∨ b = a := by
  unfold hsInsert
  by_cases h : a ∈ l
  · simp only [h, if_pos, iff_self_or]
    rintro rfl
    exact h
  · simp [h]

theorem mem_foldl_hsInsert {α : Type} [DecidableEq α] (l acc : List α)
    (b : α) : b ∈ l.foldl hsInsert acc ↔ b ∈ acc ∨ b ∈ l := by
  induction l generalizing acc with
  | nil => simp
  | cons hd tl ih =>
    simp only [List.foldl_cons, ih, mem_hsInsert, List.mem_cons]
    tauto

theorem mem_remove_task_datetime (db : List (Timestamp × Finset ℕ))
    (time : Timestamp) (task_id : TaskId) (ts : Timestamp) (u : ℕ) :
    u ∈ (alGet (remove_task_datetime db time task_id) ts).getD ∅ ↔
      u ∈ (alGet db ts).getD ∅ ∧ ¬(u = task_id ∧ ts = time) := by
  unfold remove_task_datetime
  cases h : alGet db time with
  | none =>
    by_cases hts : ts = time
    · subst hts
      simp [h]
    · simp [hts]
  | some bm =>
    by_cases he : bm.erase task_id = ∅
    · by_cases hts : ts = time
      · subst hts
        have hnot := Finset.eq_empty_iff_forall_not_mem.mp he u
        rw [Finset.mem_erase] at hnot
        simp only [he, if_pos, alGet_alDelete_self, Option.getD_none,
          Finset.not_mem_empty, false_iff, h, Option.getD_some, ne_eq] at hnot ⊢
        tauto
      · simp [he, alGet_alDelete_ne _ _ _ hts, hts]
    · by_cases hts : ts = time
      · subst hts
        simp only [he, if_neg, if_false, alGet_alPut_self, Option.getD_some,
          h, Finset.mem_erase, ne_eq]
        tauto
      · simp [he, alGet_alPut_ne _ _ _ _ hts, hts]

theorem index_tasks_update_index (s : Scheduler) (index : String)
    (f : Finset ℕ → Finset ℕ) (index' : String) :
    (s.update_index index f).index_tasks index' =
      if index' = index then f (s.index_tasks index)
      else s.index_tasks index' := by
  unfold Scheduler.update_index Scheduler.index_tasks
  by_cases h2 : index' = index
  · subst h2
    by_cases h : f ((alGet s.indexTasksDb index').getD ∅) = ∅
    · simp [h, alGet_alDelete_self]
    · simp [h, alGet_alPut_self]
  · by_cases h : f ((alGet s.indexTasksDb index).getD ∅) = ∅
    · simp [h, h2, alGet_alDelete_ne _ _ _ h2]
    · simp [h, h2, alGet_alPut_ne _ _ _ _ h2]

theorem update_index_fields (s : Scheduler) (index : String)
    (f : Finset ℕ → Finset ℕ) :
    (s.update_index index f).all_tasks = s.all_tasks ∧
    (s.update_index index f).statusDb = s.statusDb ∧
    (s.update_index index f).kindDb = s.kindDb ∧
    (s.update_index index f).enqueuedAtDb = s.enqueuedAtDb ∧
    (s.update_index index f).startedAtDb = s.startedAtDb ∧
    (s.update_index index f).finishedAtDb = s.finishedAtDb := by
  unfold Scheduler.update_index
  by_cases h : f (s.index_tasks index) = ∅ <;> simp [h]

theorem foldl_update_status_sdiff (A : List Status) (s : Scheduler)
    (D : Finset ℕ) (st : Status) :
    (A.foldl (fun s' st' =>
        s'.update_status st' (fun bm => bm \ D)) s).get_status st =
      if st ∈ A then s.get_status st \ D else s.get_status st := by
  induction A generalizing s with
  | nil => simp
  | cons a tl ih =>
    simp only [List.foldl_cons]
    rw [ih]
    by_cases hsta : st = a
    · subst hsta
      by_cases ha : st ∈ tl <;>
        simp [ha, get_status_update_status_self, Finset.sdiff_idem]
    · by_cases ha : st ∈ tl <;>
        simp [ha, hsta, get_status_update_status_ne _ _ _ _ hsta]

theorem foldl_update_status_fields (A : List Status) (s : Scheduler)
    (f : Finset ℕ → Finset ℕ) :
    (A.foldl (fun s' st' => s'.update_status st' f) s).all_tasks =
        s.all_tasks ∧
    (A.foldl (fun s' st' => s'.update_status st' f) s).kindDb = s.kindDb ∧
    (A.foldl (fun s' st' => s'.update_status st' f) s).indexTasksDb =
        s.indexTasksDb ∧
    (A.foldl (fun s' st' => s'.update_status st' f) s).enqueuedAtDb =
        s.enqueuedAtDb ∧
    (A.foldl (fun s' st' => s'.update_status st' f) s).startedAtDb =
        s.startedAtDb ∧
    (A.foldl (fun s' st' => s'.update_status st' f) s).finishedAtDb =
        s.finishedAtDb := by
  induction A generalizing s with
  | nil => exact ⟨rfl, rfl, rfl, rfl, rfl, rfl⟩
  | cons a tl ih => exact ih (s.update_status a f)

theorem foldl_update_kind_sdiff (A : List Kind) (s : Scheduler)
    (D : Finset ℕ) (k : Kind) :
    (A.foldl (fun s' k' =>
        s'.update_kind k' (fun bm => bm \ D)) s).get_kind k =
      if k ∈ A then s.get_kind k \ D else s.get_kind k := by
  induction A generalizing s with
  | nil => simp
  | cons a tl ih =>
    simp only [List.foldl_cons]
    rw [ih]
    by_cases hka : k = a
    · subst hka
      by_cases ha : k ∈ tl <;>
        simp [ha, get_kind_update_kind_self, Finset.sdiff_idem]
    · by_cases ha : k ∈ tl <;>
        simp [ha, hka, get_kind_update_kind_ne _ _ _ _ hka]

theorem foldl_update_kind_fields (A : List Kind) (s : Scheduler)
    (f : Finset ℕ → Finset ℕ) :
    (A.foldl (fun s' k' => s'.update_kind k' f) s).all_tasks = s.all_tasks ∧
    (A.foldl (fun s' k' => s'.update_kind k' f) s).statusDb = s.statusDb ∧
    (A.foldl (fun s' k' => s'.update_kind k' f) s).indexTasksDb =
        s.indexTasksDb ∧
    (A.foldl (fun s' k' => s'.update_kind k' f) s).enqueuedAtDb =
        s.enqueuedAtDb ∧
    (A.foldl (fun s' k' => s'.update_kind k' f) s).startedAtDb =
        s.startedAtDb ∧
    (A.foldl (fun s' k' => s'.update_kind k' f) s).finishedAtDb =
        s.finishedAtDb := by
  induction A generalizing s with
  | nil => exact ⟨rfl, rfl, rfl, rfl, rfl, rfl⟩
  | cons a tl ih => exact ih (s.update_kind a f)

theorem foldl_update_index_sdiff (A : List String) (s : Scheduler)
    (D : Finset ℕ) (idx : String) :
    (A.foldl (fun s' i =>
        s'.update_index i (fun bm => bm \ D)) s).index_tasks idx =
      if idx ∈ A then s.index_tasks idx \ D else s.index_tasks idx := by
  induction A generalizing s with
  | nil => simp
  | cons a tl ih =>
    simp only [List.foldl_cons]
    rw [ih]
    by_cases hia : idx = a
    · subst hia
      by_cases ha : idx ∈ tl <;>
        simp [ha, index_tasks_update_index, Finset.sdiff_idem]
    · by_cases ha : idx ∈ tl <;>
        simp [ha, hia, index_tasks_update_index]

theorem foldl_update_index_fields (A : List String) (s : Scheduler)
    (f : Finset ℕ → Finset ℕ) :
    (A.foldl (fun s' i => s'.update_index i f) s).all_tasks = s.all_tasks ∧
    (A.foldl (fun s' i => s'.update_index i f) s).statusDb = s.statusDb ∧
    (A.foldl (fun s' i => s'.update_index i f) s).kindDb = s.kindDb ∧
    (A.foldl (fun s' i => s'.update_index i f) s).enqueuedAtDb =
        s.enqueuedAtDb ∧
    (A.foldl (fun s' i => s'.update_index i f) s).startedAtDb =
        s.startedAtDb ∧
    (A.foldl (fun s' i => s'.update_index i f) s).finishedAtDb =
        s.finishedAtDb := by
  induction A generalizing s with
  | nil => exact ⟨rfl, rfl, rfl, rfl, rfl, rfl⟩
  | cons a tl ih =>
    obtain ⟨h1, h2, h3, h4, h5, h6⟩ := update_index_fields s a f
    obtain ⟨g1, g2, g3, g4, g5, g6⟩ := ih (s.update_index a f)
    exact ⟨g1.trans h1, g2.trans h2, g3.trans h3, g4.trans h4,
      g5.trans h5, g6.trans h6⟩

theorem foldl_delete_all_tasks (l : List ℕ) (s : Scheduler) :
    (∀ u, alGet ((l.foldl (fun s' t =>
        { s' with all_tasks := alDelete s'.all_tasks t }) s).all_tasks) u =
      if u ∈ l then none else alGet s.all_tasks u) ∧
    (l.foldl (fun s' t =>
        { s' with all_tasks := alDelete s'.all_tasks t }) s).statusDb =
      s.statusDb ∧
    (l.foldl (fun s' t =>
        { s' with all_tasks := alDelete s'.all_tasks t }) s).kindDb =
      s.kindDb ∧
    (l.foldl (fun s' t =>
        { s' with all_tasks := alDelete s'.all_tasks t }) s).indexTasksDb =
      s.indexTasksDb ∧
    (l.foldl (fun s' t =>
        { s' with all_tasks := alDelete s'.all_tasks t }) s).enqueuedAtDb =
      s.enqueuedAtDb ∧
    (l.foldl (fun s' t =>
        { s' with all_tasks := alDelete s'.all_tasks t }) s).startedAtDb =
      s.startedAtDb ∧
    (l.foldl (fun s' t =>
        { s' with all_tasks := alDelete s'.all_tasks t }) s).finishedAtDb =
      s.finishedAtDb := by
  induction l generalizing s with
  | nil => exact ⟨fun u => by simp, rfl, rfl, rfl, rfl, rfl, rfl⟩
  | cons a tl ih =>
    obtain ⟨g1, g2, g3, g4, g5, g6, g7⟩ :=
      ih { s with all_tasks := alDelete s.all_tasks a }
    simp only [List.foldl_cons]
    refine ⟨?_, g2, g3, g4, g5, g6, g7⟩
    intro u
    rw [g1 u]
    by_cases h1 : u ∈ tl
    · simp [h1]
    · by_cases h2 : u = a
      · subst h2
        simp [h1, alGet_alDelete_self]
      · simp [h1, h2, alGet_alDelete_ne _ _ _ h2]

theorem ok_bind {ε α β : Type} (a : α) (f : α → Except ε β) :
    ((Except.ok a : Except ε α) >>= f) = f a := rfl

theorem mem_remove_iff_flip (db : List (Timestamp × Finset ℕ))
    (time : Timestamp) (task_id : TaskId) (ts : Timestamp) (u : ℕ) :
    u ∈ (alGet (remove_task_datetime db time task_id) ts).getD ∅ ↔
      u ∈ (alGet db ts).getD ∅ ∧ ¬(u = task_id ∧ time = ts) := by
  rw [mem_remove_task_datetime]
  constructor
  · rintro ⟨hu, hne⟩
    exact ⟨hu, fun h => hne ⟨h.1, h.2.symm⟩⟩
  · rintro ⟨hu, hne⟩
    exact ⟨hu, fun h => hne ⟨h.1, h.2.symm⟩⟩

theorem deleteLoopStep_ok (s : Scheduler) (aI : List String)
    (aS : List Status) (aK : List Kind) (u0 : TaskId) (t0 : Task)
    (ht0 : s.get_task u0 = some t0) :
    ∃ s1, deleteLoopStep (s, (aI, aS, aK)) u0 = .ok (s1,
        ((match t0.indexes with
          | some task_indexes => task_indexes.foldl hsInsert aI
          | none => aI),
        hsInsert aS t0.status, hsInsert aK t0.kind.as_kind)) ∧
      s1.all_tasks = s.all_tasks ∧ s1.statusDb = s.statusDb ∧
      s1.kindDb = s.kindDb ∧ s1.indexTasksDb = s.indexTasksDb ∧
      (∀ ts u, u ∈ (alGet s1.enqueuedAtDb ts).getD ∅ ↔
        u ∈ (alGet s.enqueuedAtDb ts).getD ∅ ∧
          ¬(u = u0 ∧ t0.enqueued_at = ts)) ∧
      (∀ ts u, u ∈ (alGet s1.startedAtDb ts).getD ∅ ↔
        u ∈ (alGet s.startedAtDb ts).getD ∅ ∧
          ¬(u = u0 ∧ t0.started_at = some ts)) ∧
      (∀ ts u, u ∈ (alGet s1.finishedAtDb ts).getD ∅ ↔
        u ∈ (alGet s.finishedAtDb ts).getD ∅ ∧
          ¬(u = u0 ∧ t0.finished_at = some ts)) := by
  cases hst : t0.started_at with
  | none =>
    cases hft : t0.finished_at with
    | none =>
      refine ⟨{ s with
          enqueuedAtDb :=
            remove_task_datetime s.enqueuedAtDb t0.enqueued_at u0 },
        ?_, rfl, rfl, rfl, rfl, ?_, ?_, ?_⟩
      · simp only [deleteLoopStep, ht0, hst, hft]
      · intro ts u
        exact mem_remove_iff_flip s.enqueuedAtDb t0.enqueued_at u0 ts u
      · intro ts u
        simp [hst]
      · intro ts u
        simp [hft]
    | some ft0 =>
      refine ⟨{ s with
          enqueuedAtDb :=
            remove_task_datetime s.enqueuedAtDb t0.enqueued_at u0
          finishedAtDb := remove_task_datetime s.finishedAtDb ft0 u0 },
        ?_, rfl, rfl, rfl, rfl, ?_, ?_, ?_⟩
      · simp only [deleteLoopStep, ht0, hst, hft]
      · intro ts u
        exact mem_remove_iff_flip s.enqueuedAtDb t0.enqueued_at u0 ts u
      · intro ts u
        simp [hst]
      · intro ts u
        simpa using mem_remove_iff_flip s.finishedAtDb ft0 u0 ts u
  | some st0 =>
    cases hft : t0.finished_at with
    | none =>
      refine ⟨{ s with
          enqueuedAtDb :=
            remove_task_datetime s.enqueuedAtDb t0.enqueued_at u0
          startedAtDb := remove_task_datetime s.startedAtDb st0 u0 },
        ?_, rfl, rfl, rfl, rfl, ?_, ?_, ?_⟩
      · simp only [deleteLoopStep, ht0, hst, hft]
      · intro ts u
        exact mem_remove_iff_flip s.enqueuedAtDb t0.enqueued_at u0 ts u
      · intro ts u
        simpa using mem_remove_iff_flip s.startedAtDb st0 u0 ts u
      · intro ts u
        simp [hft]
    | some ft0 =>
      refine ⟨{ s with
          enqueuedAtDb :=
            remove_task_datetime s.enqueuedAtDb t0.enqueued_at u0
          startedAtDb := remove_task_datetime s.startedAtDb st0 u0
          finishedAtDb := remove_task_datetime s.finishedAtDb ft0 u0 },
        ?_, rfl, rfl, rfl, rfl, ?_, ?_, ?_⟩
      · simp only [deleteLoopStep, ht0, hst, hft]
      · intro ts u
        exact mem_remove_iff_flip s.enqueuedAtDb t0.enqueued_at u0 ts u
      · intro ts u
        simpa using mem_remove_iff_flip s.startedAtDb st0 u0 ts u
      · intro ts u
        simpa using mem_remove_iff_flip s.finishedAtDb ft0 u0 ts u

theorem deleteLoop_combine (s : Scheduler) (u0 : ℕ) (t0 : Task)
    (tl : List ℕ) (u : ℕ) (ht0 : s.get_task u0 = some t0)
    (C : Task → Prop) (S S1 S' : Prop)
    (h1 : S1 ↔ S ∧ ¬(u = u0 ∧ C t0))
    (h2 : S' ↔ S1 ∧ ¬(u ∈ tl ∧ ∃ t, s.get_task u = some t ∧ C t)) :
    S' ↔ S ∧ ¬(u ∈ u0 :: tl ∧ ∃ t, s.get_task u = some t ∧ C t) := by
  rw [h2, h1]
  constructor
  · rintro ⟨⟨hS, hne0⟩, hnetl⟩
    refine ⟨hS, ?_⟩
    rintro ⟨hmem, t, hgt, hC⟩
    rcases List.mem_cons.mp hmem with rfl | htl
    · rw [ht0] at hgt
      refine hne0 ⟨rfl, ?_⟩
      rwa [← Option.some.inj hgt] at hC
    · exact hnetl ⟨htl, t, hgt, hC⟩
  · rintro ⟨hS, hno⟩
    refine ⟨⟨hS, ?_⟩, ?_⟩
    · rintro ⟨rfl, hC0⟩
      exact hno ⟨List.mem_cons_self _ _, t0, ht0, hC0⟩
    · rintro ⟨htl, t, hgt, hC⟩
      exact hno ⟨List.mem_cons_of_mem _ htl, t, hgt, hC⟩

theorem deleteLoop_spec (l : List ℕ) (s : Scheduler) (aI : List String)
    (aS : List Status) (aK : List Kind)
    (hex : ∀ u ∈ l, ∃ t, s.get_task u = some t) :
    ∃ s' aI' aS' aK',
      l.foldlM deleteLoopStep (s, (aI, aS, aK)) =
        .ok (s', (aI', aS', aK')) ∧
      s'.all_tasks = s.all_tasks ∧
      s'.statusDb = s.statusDb ∧
      s'.kindDb = s.kindDb ∧
      s'.indexTasksDb = s.indexTasksDb ∧
      (∀ ts u, u ∈ (alGet s'.enqueuedAtDb ts).getD ∅ ↔
        u ∈ (alGet s.enqueuedAtDb ts).getD ∅ ∧
          ¬(u ∈ l ∧ ∃ t, s.get_task u = some t ∧ t.enqueued_at = ts)) ∧
      (∀ ts u, u ∈ (alGet s'.startedAtDb ts).getD ∅ ↔
        u ∈ (alGet s.startedAtDb ts).getD ∅ ∧
          ¬(u ∈ l ∧ ∃ t, s.get_task u = some t ∧
              t.started_at = some ts)) ∧
      (∀ ts u, u ∈ (alGet s'.finishedAtDb ts).getD ∅ ↔
        u ∈ (alGet s.finishedAtDb ts).getD ∅ ∧
          ¬(u ∈ l ∧ ∃ t, s.get_task u = some t ∧
              t.finished_at = some ts)) ∧
      (∀ x ∈ aI, x ∈ aI') ∧ (∀ x ∈ aS, x ∈ aS') ∧ (∀ x ∈ aK, x ∈ aK') ∧
      (∀ u ∈ l, ∀ t, s.get_task u = some t →
        t.status ∈ aS' ∧ t.kind.as_kind ∈ aK' ∧
        ∀ idx ∈ (t.indexes).getD [], idx ∈ aI') := by
  induction l generalizing s aI aS aK with
  | nil =>
    refine ⟨s, aI, aS, aK, rfl, rfl, rfl, rfl, rfl, ?_, ?_, ?_,
      fun x h => h, fun x h => h, fun x h => h, fun u hu => absurd hu
        (List.not_mem_nil u)⟩ <;>
      · intro ts u
        simp
  | cons u0 tl ih =>
    obtain ⟨t0, ht0⟩ := hex u0 (List.mem_cons_self u0 tl)
    obtain ⟨s1, hstep, h1all, h1st, h1kd, h1idx, h1enq, h1sta, h1fin⟩ :=
      deleteLoopStep_ok s aI aS aK u0 t0 ht0
    have hget1 : ∀ v, s1.get_task v = s.get_task v := by
      intro v
      unfold Scheduler.get_task
      rw [h1all]
    have hex1 : ∀ u ∈ tl, ∃ t, s1.get_task u = some t := by
      intro u hu
      rw [hget1]
      exact hex u (List.mem_cons_of_mem _ hu)
    obtain ⟨s', aI', aS', aK', hrun, hall, hstdb, hkdb, hidxdb, henq,
      hsta, hfin, hmI, hmS, hmK, hmem⟩ := ih s1 _ _ _ hex1
    simp only [hget1] at henq hsta hfin hmem
    have h1enq' : ∀ ts u, u ∈ (alGet s1.enqueuedAtDb ts).getD ∅ ↔
        u ∈ (alGet s.enqueuedAtDb ts).getD ∅ ∧
          ¬(u = u0 ∧ t0.enqueued_at = ts) := h1enq
    refine ⟨s', aI', aS', aK', ?_, hall.trans h1all, hstdb.trans h1st,
      hkdb.trans h1kd, hidxdb.trans h1idx, ?_, ?_, ?_, ?_, ?_, ?_, ?_⟩
    · rw [List.foldlM_cons, hstep, ok_bind]
      exact hrun
    · intro ts u
      exact deleteLoop_combine s u0 t0 tl u ht0
        (fun t => t.enqueued_at = ts) _ _ _ (h1enq' ts u) (henq ts u)
    · intro ts u
      exact deleteLoop_combine s u0 t0 tl u ht0
        (fun t => t.started_at = some ts) _ _ _ (h1sta ts u) (hsta ts u)
    · intro ts u
      exact deleteLoop_combine s u0 t0 tl u ht0
        (fun t => t.finished_at = some ts) _ _ _ (h1fin ts u) (hfin ts u)
    · intro x hx
      apply hmI
      cases hti : t0.indexes with
      | none => exact hx
      | some ti => exact (mem_foldl_hsInsert ti aI x).mpr (Or.inl hx)
    · intro x hx
      exact hmS x ((mem_hsInsert aS t0.status x).mpr (Or.inl hx))
    · intro x hx
      exact hmK x ((mem_hsInsert aK t0.kind.as_kind x).mpr (Or.inl hx))
    · intro u hu t hgt
      rcases List.mem_cons.mp hu with rfl | htl
      · rw [ht0] at hgt
        obtain rfl : t0 = t := Option.some.inj hgt
        refine ⟨hmS _ ((mem_hsInsert aS t0.status _).mpr (Or.inr rfl)),
          hmK _ ((mem_hsInsert aK t0.kind.as_kind _).mpr (Or.inr rfl)),
          ?_⟩
        intro idx hidx
        apply hmI
        cases hti : t0.indexes with
        | none => simp [hti] at hidx
        | some ti =>
          rw [hti] at hidx
          exact (mem_foldl_hsInsert ti aI idx).mpr (Or.inr hidx)
      · exact hmem u htl t hgt

theorem get_status_congr {s1 s2 : Scheduler} (h : s1.statusDb = s2.statusDb)
    (st : Status) : s1.get_status st = s2.get_status st := by
  unfold Scheduler.get_status
  rw [h]

theorem get_kind_congr {s1 s2 : Scheduler} (h : s1.kindDb = s2.kindDb)
    (k : Kind) : s1.get_kind k = s2.get_kind k := by
  unfold Scheduler.get_kind
  rw [h]

theorem index_tasks_congr {s1 s2 : Scheduler}
    (h : s1.indexTasksDb = s2.indexTasksDb) (idx : String) :
    s1.index_tasks idx = s2.index_tasks idx := by
  unfold Scheduler.index_tasks
  rw [h]

theorem get_task_congr {s1 s2 : Scheduler} (h : s1.all_tasks = s2.all_tasks)
    (u : TaskId) : s1.get_task u = s2.get_task u := by
  unfold Scheduler.get_task
  rw [h]

theorem mem_getD_alGet {κ : Type} [DecidableEq κ]
    (db : List (κ × Finset ℕ)) (k : κ) (u : ℕ)
    (h : u ∈ (alGet db k).getD ∅) :
    ∃ bm, alGet db k = some bm ∧ u ∈ bm := by
  cases hg : alGet db k with
  | none => rw [hg] at h; simp at h
  | some bm => rw [hg] at h; exact ⟨bm, rfl, h⟩

/-! ## Theorems: claim C1 (the TaskCancelation batch) -/

/-- **C1 (code bug exhibit).** One enqueued `DocumentClear` task (uid 0, no
content file) is matched by the cancelation task (uid 1): processing the
`TaskCancelation` batch cancels it — task 0 ends `Canceled` with
`canceled_by = 1` and `finished_at = now` — yet the cancelation task's
`canceled_tasks` detail is set to `some 0`, the length of the collected
content-file list, although `|Enqueued ∩ matched_tasks| = 1`.  This
contradicts the spec and the repository's own documentation of the
`canceled_tasks` field ("Number of tasks canceled for taskCancelation",
`meilisearch-types/src/task_view.rs`). -/
theorem task_cancelation_counter_code_bug :
    ((process_task_cancelation
      ⟨[(0, ⟨0, 0, none, none, none, none, none, .enqueued,
          .documentClear "a"⟩),
        (1, ⟨1, 0, none, none, none, none,
          some (.taskCancelation 1 none "q"), .enqueued,
          .taskCancelation "q" {0}⟩)],
       [(Status.enqueued, {0, 1})],
       [(Kind.documentClear, {0}), (Kind.taskCancelation, {1})],
       [("a", {0})], [((0 : ℤ), {0, 1})], [], [], ∅, [], true⟩
      ⟨1, 0, none, none, none, none, some (.taskCancelation 1 none "q"),
        .enqueued, .taskCancelation "q" {0}⟩ 50).map
      (fun r => ((r.1.get_task 0).map Task.status,
        (r.1.get_task 0).map Task.canceled_by,
        (r.1.get_task 0).map Task.finished_at,
        r.2.1.details, r.2.2)) =
      .ok (some .canceled, some (some 1), some (some 50),
        some (.taskCancelation 1 (some 0) "q"), ([] : List Uuid))) ∧
    ((Scheduler.get_status
      ⟨[(0, ⟨0, 0, none, none, none, none, none, .enqueued,
          .documentClear "a"⟩),
        (1, ⟨1, 0, none, none, none, none,
          some (.taskCancelation 1 none "q"), .enqueued,
          .taskCancelation "q" {0}⟩)],
       [(Status.enqueued, {0, 1})],
       [(Kind.documentClear, {0}), (Kind.taskCancelation, {1})],
       [("a", {0})], [((0 : ℤ), {0, 1})], [], [], ∅, [],
       true⟩ Status.enqueued) ∩ ({0} : Finset ℕ)).card = 1 := by
  constructor
  · rfl
  · rfl

/-! ## Theorems: claim C2 (the TaskDeletion batch) -/

/-- **C2.** Processing a `TaskDeletion` batch removes no task that is
`Enqueued` or currently `Processing`: exactly the tasks of
`matched ∩ all_tasks - Enqueued - Processing` are removed from `all_tasks`
and from every status, kind, `index_tasks` and timestamp bitmap they
belonged to, and the returned `deleted_tasks` count is the cardinality of
the removed set.  The hypotheses are the store-consistency invariants (§3
invariants 1-2) restricted to the deleted uids. -/
theorem delete_matched_tasks_spec (s : Scheduler)
    (matched_tasks D : Finset ℕ)
    (hD : D = ((s.all_task_ids ∩ matched_tasks) \ s.processing_tasks)
      \ s.get_status .enqueued)
    (hex : ∀ u ∈ D, ∃ t, s.get_task u = some t)
    (hstat : ∀ u ∈ D, ∀ t, s.get_task u = some t →
      ∀ st, u ∈ s.get_status st → st = t.status)
    (hkind : ∀ u ∈ D, ∀ t, s.get_task u = some t →
      ∀ k, u ∈ s.get_kind k → k = t.kind.as_kind)
    (hidxc : ∀ u ∈ D, ∀ t, s.get_task u = some t →
      ∀ p ∈ s.indexTasksDb, u ∈ p.2 → p.1 ∈ (t.indexes).getD [])
    (henqc : ∀ u ∈ D, ∀ t, s.get_task u = some t →
      ∀ p ∈ s.enqueuedAtDb, u ∈ p.2 → t.enqueued_at = p.1)
    (hstac : ∀ u ∈ D, ∀ t, s.get_task u = some t →
      ∀ p ∈ s.startedAtDb, u ∈ p.2 → t.started_at = some p.1)
    (hfinc : ∀ u ∈ D, ∀ t, s.get_task u = some t →
      ∀ p ∈ s.finishedAtDb, u ∈ p.2 → t.finished_at = some p.1) :
    ∃ s', s.delete_matched_tasks matched_tasks = .ok (s', D.card) ∧
      (∀ u ∈ D, s'.get_task u = none) ∧
      (∀ u, u ∉ D → s'.get_task u = s.get_task u) ∧
      (∀ u, u ∈ s.get_status .enqueued ∨ u ∈ s.processing_tasks →
        s'.get_task u = s.get_task u) ∧
      (∀ st u, u ∈ s'.get_status st ↔ u ∈ s.get_status st ∧ u ∉ D) ∧
      (∀ k u, u ∈ s'.get_kind k ↔ u ∈ s.get_kind k ∧ u ∉ D) ∧
      (∀ idx u, u ∈ s'.index_tasks idx ↔
        u ∈ s.index_tasks idx ∧ u ∉ D) ∧
      (∀ ts u, u ∈ (alGet s'.enqueuedAtDb ts).getD ∅ ↔
        u ∈ (alGet s.enqueuedAtDb ts).getD ∅ ∧ u ∉ D) ∧
      (∀ ts u, u ∈ (alGet s'.startedAtDb ts).getD ∅ ↔
        u ∈ (alGet s.startedAtDb ts).getD ∅ ∧ u ∉ D) ∧
      (∀ ts u, u ∈ (alGet s'.finishedAtDb ts).getD ∅ ↔
        u ∈ (alGet s.finishedAtDb ts).getD ∅ ∧ u ∉ D) ∧
      (∀ dt q m dprev oq, dt.kind = .taskDeletion q matched_tasks →
        dt.details = some (.taskDeletion m dprev oq) →
        process_task_deletion s dt = .ok (s', { dt with
          status := .succeeded
          details := some (.taskDeletion m (some D.card) oq) })) := by
  obtain ⟨sA, aI, aS, aK, hrun, hall, hstdb, hkdb, hidxdb, henqA, hstaA,
      hfinA, -, -, -, hmem⟩ :=
    deleteLoop_spec (bitmapToList D) s [] [] []
      (fun u hu => hex u ((mem_bitmapToList D u).mp hu))
  have hD' : ((s.all_task_ids ∩ matched_tasks) \ s.processing_tasks)
      \ s.get_status .enqueued = D := hD.symm
  have hndD : ∀ u, u ∈ s.get_status .enqueued ∨ u ∈ s.processing_tasks →
      u ∉ D := by
    intro u hu hmemD
    rw [hD] at hmemD
    rcases hu with h | h
    · exact (Finset.mem_sdiff.mp hmemD).2 h
    · exact (Finset.mem_sdiff.mp (Finset.mem_sdiff.mp hmemD).1).2 h
  obtain ⟨hB1, hB2, hB3, hB4, hB5, hB6⟩ :=
    foldl_update_index_fields aI sA (fun bm => bm \ D)
  obtain ⟨hC1, hC2, hC3, hC4, hC5, hC6⟩ :=
    foldl_update_status_fields aS
      (aI.foldl (fun s' i => s'.update_index i (fun bm => bm \ D)) sA)
      (fun bm => bm \ D)
  obtain ⟨hE1, hE2, hE3, hE4, hE5, hE6⟩ :=
    foldl_update_kind_fields aK
      (aS.foldl (fun s' st' => s'.update_status st' (fun bm => bm \ D))
        (aI.foldl (fun s' i => s'.update_index i (fun bm => bm \ D)) sA))
      (fun bm => bm \ D)
  obtain ⟨hF1, hF2, hF3, hF4, hF5, hF6, hF7⟩ :=
    foldl_delete_all_tasks (bitmapToList D)
      (aK.foldl (fun s' k' => s'.update_kind k' (fun bm => bm \ D))
        (aS.foldl (fun s' st' => s'.update_status st' (fun bm => bm \ D))
          (aI.foldl (fun s' i => s'.update_index i (fun bm => bm \ D))
            sA)))
  have hnotl : ∀ u, u ∉ D → u ∉ bitmapToList D := by
    intro u hu hul
    exact hu ((mem_bitmapToList D u).mp hul)
  have hget_preserve : ∀ u, u ∉ D →
      alGet ((bitmapToList D).foldl (fun s' t =>
        { s' with all_tasks := alDelete s'.all_tasks t })
        (aK.foldl (fun s' k' => s'.update_kind k' (fun bm => bm \ D))
          (aS.foldl (fun s' st' =>
              s'.update_status st' (fun bm => bm \ D))
            (aI.foldl (fun s' i => s'.update_index i (fun bm => bm \ D))
              sA)))).all_tasks u = s.get_task u := by
    intro u hu
    rw [hF1 u, if_neg (hnotl u hu), hE1, hC1, hB1, hall]
    rfl
  have hrunF : s.delete_matched_tasks matched_tasks =
      .ok ((bitmapToList D).foldl (fun s' t =>
        { s' with all_tasks := alDelete s'.all_tasks t })
        (aK.foldl (fun s' k' => s'.update_kind k' (fun bm => bm \ D))
          (aS.foldl (fun s' st' => s'.update_status st' (fun bm => bm \ D))
            (aI.foldl (fun s' i => s'.update_index i (fun bm => bm \ D))
              sA))), D.card) := by
    simp only [Scheduler.delete_matched_tasks]
    rw [hD', hrun, ok_bind]
    rfl
  refine ⟨(bitmapToList D).foldl (fun s' t =>
      { s' with all_tasks := alDelete s'.all_tasks t })
      (aK.foldl (fun s' k' => s'.update_kind k' (fun bm => bm \ D))
        (aS.foldl (fun s' st' => s'.update_status st' (fun bm => bm \ D))
          (aI.foldl (fun s' i => s'.update_index i (fun bm => bm \ D))
            sA))),
    hrunF, ?_, ?_, ?_, ?_, ?_, ?_, ?_, ?_, ?_, ?_⟩
  · intro u hu
    show alGet _ u = none
    rw [hF1 u, if_pos ((mem_bitmapToList D u).mpr hu)]
  · intro u hu
    exact hget_preserve u hu
  · intro u hu
    exact hget_preserve u (hndD u hu)
  · intro st u
    rw [get_status_congr (hF2.trans hE2) st, foldl_update_status_sdiff]
    simp only [get_status_congr (hB2.trans hstdb) st]
    by_cases hst : st ∈ aS
    · simp [hst, Finset.mem_sdiff]
    · simp only [hst, if_neg, if_false]
      constructor
      · intro hu
        refine ⟨hu, ?_⟩
        intro hmemD
        obtain ⟨t, hgt⟩ := hex u hmemD
        have := hstat u hmemD t hgt st hu
        have hm := (hmem u ((mem_bitmapToList D u).mpr hmemD) t hgt).1
        rw [this] at hst
        exact hst hm
      · exact fun h => h.1
  · intro k u
    rw [get_kind_congr hF3 k, foldl_update_kind_sdiff]
    simp only [get_kind_congr (hC2.trans (hB3.trans hkdb)) k]
    by_cases hk : k ∈ aK
    · simp [hk, Finset.mem_sdiff]
    · simp only [hk, if_neg, if_false]
      constructor
      · intro hu
        refine ⟨hu, ?_⟩
        intro hmemD
        obtain ⟨t, hgt⟩ := hex u hmemD
        have := hkind u hmemD t hgt k hu
        have hm := (hmem u ((mem_bitmapToList D u).mpr hmemD) t hgt).2.1
        rw [this] at hk
        exact hk hm
      · exact fun h => h.1
  · intro idx u
    rw [index_tasks_congr (hF4.trans (hE3.trans hC3)) idx,
      foldl_update_index_sdiff]
    simp only [index_tasks_congr hidxdb idx]
    by_cases hi : idx ∈ aI
    · simp [hi, Finset.mem_sdiff]
    · simp only [hi, if_neg, if_false]
      constructor
      · intro hu
        refine ⟨hu, ?_⟩
        intro hmemD
        obtain ⟨t, hgt⟩ := hex u hmemD
        obtain ⟨bm, halg, hubm⟩ := mem_getD_alGet s.indexTasksDb idx u hu
        have hpin := alGet_mem s.indexTasksDb idx bm halg
        have hidx2 := hidxc u hmemD t hgt (idx, bm) hpin hubm
        have hm := (hmem u ((mem_bitmapToList D u).mpr hmemD) t hgt).2.2
          idx hidx2
        exact hi hm
      · exact fun h => h.1
  · intro ts u
    rw [show ((bitmapToList D).foldl (fun s' t =>
        { s' with all_tasks := alDelete s'.all_tasks t })
        (aK.foldl (fun s' k' => s'.update_kind k' (fun bm => bm \ D))
          (aS.foldl (fun s' st' =>
              s'.update_status st' (fun bm => bm \ D))
            (aI.foldl (fun s' i => s'.update_index i (fun bm => bm \ D))
              sA)))).enqueuedAtDb = sA.enqueuedAtDb
      from hF5.trans (hE4.trans (hC4.trans hB4))]
    rw [henqA ts u]
    constructor
    · rintro ⟨hu, hno⟩
      refine ⟨hu, ?_⟩
      intro hmemD
      obtain ⟨t, hgt⟩ := hex u hmemD
      obtain ⟨bm, halg, hubm⟩ := mem_getD_alGet s.enqueuedAtDb ts u hu
      have hpin := alGet_mem s.enqueuedAtDb ts bm halg
      have hts := henqc u hmemD t hgt (ts, bm) hpin hubm
      exact hno ⟨(mem_bitmapToList D u).mpr hmemD, t, hgt, hts⟩
    · rintro ⟨hu, hnd⟩
      refine ⟨hu, ?_⟩
      rintro ⟨hul, -⟩
      exact hnd ((mem_bitmapToList D u).mp hul)
  · intro ts u
    rw [show ((bitmapToList D).foldl (fun s' t =>
        { s' with all_tasks := alDelete s'.all_tasks t })
        (aK.foldl (fun s' k' => s'.update_kind k' (fun bm => bm \ D))
          (aS.foldl (fun s' st' =>
              s'.update_status st' (fun bm => bm \ D))
            (aI.foldl (fun s' i => s'.update_index i (fun bm => bm \ D))
              sA)))).startedAtDb = sA.startedAtDb
      from hF6.trans (hE5.trans (hC5.trans hB5))]
    rw [hstaA ts u]
    constructor
    · rintro ⟨hu, hno⟩
      refine ⟨hu, ?_⟩
      intro hmemD
      obtain ⟨t, hgt⟩ := hex u hmemD
      obtain ⟨bm, halg, hubm⟩ := mem_getD_alGet s.startedAtDb ts u hu
      have hpin := alGet_mem s.startedAtDb ts bm halg
      have hts := hstac u hmemD t hgt (ts, bm) hpin hubm
      exact hno ⟨(mem_bitmapToList D u).mpr hmemD, t, hgt, hts⟩
    · rintro ⟨hu, hnd⟩
      refine ⟨hu, ?_⟩
      rintro ⟨hul, -⟩
      exact hnd ((mem_bitmapToList D u).mp hul)
  · intro ts u
    rw [show ((bitmapToList D).foldl (fun s' t =>
        { s' with all_tasks := alDelete s'.all_tasks t })
        (aK.foldl (fun s' k' => s'.update_kind k' (fun bm => bm \ D))
          (aS.foldl (fun s' st' =>
              s'.update_status st' (fun bm => bm \ D))
            (aI.foldl (fun s' i => s'.update_index i (fun bm => bm \ D))
              sA)))).finishedAtDb = sA.finishedAtDb
      from hF7.trans (hE6.trans (hC6.trans hB6))]
    rw [hfinA ts u]
    constructor
    · rintro ⟨hu, hno⟩
      refine ⟨hu, ?_⟩
      intro hmemD
      obtain ⟨t, hgt⟩ := hex u hmemD
      obtain ⟨bm, halg, hubm⟩ := mem_getD_alGet s.finishedAtDb ts u hu
      have hpin := alGet_mem s.finishedAtDb ts bm halg
      have hts := hfinc u hmemD t hgt (ts, bm) hpin hubm
      exact hno ⟨(mem_bitmapToList D u).mpr hmemD, t, hgt, hts⟩
    · rintro ⟨hu, hnd⟩
      refine ⟨hu, ?_⟩
      rintro ⟨hul, -⟩
      exact hnd ((mem_bitmapToList D u).mp hul)
  · intro dt q m dprev oq hkdt hddt
    simp only [process_task_deletion, hkdt, hddt]
    rw [hrunF, ok_bind, ← hkdt]
    rfl

/-- Witness for C2 at a concrete input: matching the succeeded task 0 and
the enqueued task 1 deletes exactly task 0 (count 1) and leaves the enqueued
task 1 untouched. -/
theorem delete_matched_tasks_spec_witness :
    ∃ s', Scheduler.delete_matched_tasks
      ⟨[(0, ⟨0, 0, some 10, some 20, none, none, none, .succeeded,
          .documentClear "a"⟩),
        (1, ⟨1, 0, none, none, none, none, none, .enqueued,
          .documentClear "a"⟩)],
       [(Status.succeeded, {0}), (Status.enqueued, {1})],
       [(Kind.documentClear, {0, 1})], [("a", {0, 1})],
       [((0 : ℤ), {0, 1})], [((10 : ℤ), {0})], [((20 : ℤ), {0})],
       ∅, [("a", 5)], true⟩ {0, 1} = .ok (s', 1) ∧
      s'.get_task 0 = none ∧
      s'.get_task 1 = some ⟨1, 0, none, none, none, none, none, .enqueued,
        .documentClear "a"⟩ := by
  obtain ⟨s', hrun, hdel, hkeep, -, -, -, -, -, -, -, -⟩ :=
    delete_matched_tasks_spec
      ⟨[(0, ⟨0, 0, some 10, some 20, none, none, none, .succeeded,
          .documentClear "a"⟩),
        (1, ⟨1, 0, none, none, none, none, none, .enqueued,
          .documentClear "a"⟩)],
       [(Status.succeeded, {0}), (Status.enqueued, {1})],
       [(Kind.documentClear, {0, 1})], [("a", {0, 1})],
       [((0 : ℤ), {0, 1})], [((10 : ℤ), {0})], [((20 : ℤ), {0})],
       ∅, [("a", 5)], true⟩ {0, 1} {0}
      (by decide)
      (fun u hu => by
        obtain rfl : u = 0 := Finset.mem_singleton.mp hu
        exact ⟨⟨0, 0, some 10, some 20, none, none, none, .succeeded,
          .documentClear "a"⟩, rfl⟩)
      (fun u hu t hgt => by
        obtain rfl : u = 0 := Finset.mem_singleton.mp hu
        obtain rfl : (⟨0, 0, some 10, some 20, none, none, none, .succeeded,
            .documentClear "a"⟩ : Task) = t := Option.some.inj hgt
        intro st hst
        revert hst
        revert st
        decide)
      (fun u hu t hgt => by
        obtain rfl : u = 0 := Finset.mem_singleton.mp hu
        obtain rfl : (⟨0, 0, some 10, some 20, none, none, none, .succeeded,
            .documentClear "a"⟩ : Task) = t := Option.some.inj hgt
        intro k hk
        revert hk
        revert k
        decide)
      (fun u hu t hgt => by
        obtain rfl : u = 0 := Finset.mem_singleton.mp hu
        obtain rfl : (⟨0, 0, some 10, some 20, none, none, none, .succeeded,
            .documentClear "a"⟩ : Task) = t := Option.some.inj hgt
        decide)
      (fun u hu t hgt => by
        obtain rfl : u = 0 := Finset.mem_singleton.mp hu
        obtain rfl : (⟨0, 0, some 10, some 20, none, none, none, .succeeded,
            .documentClear "a"⟩ : Task) = t := Option.some.inj hgt
        decide)
      (fun u hu t hgt => by
        obtain rfl : u = 0 := Finset.mem_singleton.mp hu
        obtain rfl : (⟨0, 0, some 10, some 20, none, none, none, .succeeded,
            .documentClear "a"⟩ : Task) = t := Option.some.inj hgt
        decide)
      (fun u hu t hgt => by
        obtain rfl : u = 0 := Finset.mem_singleton.mp hu
        obtain rfl : (⟨0, 0, some 10, some 20, none, none, none, .succeeded,
            .documentClear "a"⟩ : Task) = t := Option.some.inj hgt
        decide)
  refine ⟨s', ?_, hdel 0 (by decide), ?_⟩
  · rw [hrun]
    rfl
  · rw [hkeep 1 (by decide)]
    rfl

/-! ## Theorems: claim C4 (apply_index_swap) -/

theorem bitmapToList_nodup (bm : Finset ℕ) : (bitmapToList bm).Nodup :=
  (List.nodup_range _).filter _

theorem swapLoopStep_ok (lhs rhs : String) (s : Scheduler) (tid : ℕ)
    (t : Task) (h : s.get_task tid = some t) :
    swapLoopStep lhs rhs s tid = .ok { s with
      all_tasks := (alPut s.all_tasks tid (swap_index_uid_in_task t (lhs, rhs)))
      } := by
  unfold swapLoopStep
  rw [h]

theorem swapLoop_spec (lhs rhs : String) (l : List ℕ) (s : Scheduler)
    (hnd : l.Nodup) (hex : ∀ u ∈ l, ∃ t, s.get_task u = some t) :
    ∃ s', l.foldlM (swapLoopStep lhs rhs) s = .ok s' ∧
      (∀ u ∈ l, ∀ t, s.get_task u = some t →
        s'.get_task u = some (swap_index_uid_in_task t (lhs, rhs))) ∧
      (∀ u, u ∉ l → s'.get_task u = s.get_task u) ∧
      s'.statusDb = s.statusDb ∧ s'.kindDb = s.kindDb ∧
      s'.indexTasksDb = s.indexTasksDb ∧
      s'.enqueuedAtDb = s.enqueuedAtDb ∧
      s'.startedAtDb = s.startedAtDb ∧
      s'.finishedAtDb = s.finishedAtDb ∧
      s'.indexMapper = s.indexMapper := by
  induction l generalizing s with
  | nil =>
    exact ⟨s, rfl, by simp, fun u _ => rfl, rfl, rfl, rfl, rfl, rfl, rfl,
      rfl⟩
  | cons u0 tl ih =>
    obtain ⟨t0, ht0⟩ := hex u0 (List.mem_cons_self _ _)
    obtain ⟨hu0tl, hndtl⟩ := List.nodup_cons.mp hnd
    have hget1 : ∀ u, u ≠ u0 →
        Scheduler.get_task { s with
          all_tasks := (alPut s.all_tasks u0 (swap_index_uid_in_task t0 (lhs, rhs)))
          } u = s.get_task u :=
      fun u hu => alGet_alPut_ne _ _ _ _ hu
    have hex1 : ∀ u ∈ tl, ∃ t,
        Scheduler.get_task { s with
          all_tasks := (alPut s.all_tasks u0 (swap_index_uid_in_task t0 (lhs, rhs)))
          } u = some t := by
      intro u hu
      rw [hget1 u (fun he => hu0tl (he ▸ hu))]
      exact hex u (List.mem_cons_of_mem _ hu)
    obtain ⟨s', hrun, hswap, hkeep, hf1, hf2, hf3, hf4, hf5, hf6, hf7⟩ :=
      ih { s with
        all_tasks := (alPut s.all_tasks u0 (swap_index_uid_in_task t0 (lhs, rhs)))
        } hndtl hex1
    refine ⟨s', ?_, ?_, ?_, hf1, hf2, hf3, hf4, hf5, hf6, hf7⟩
    · rw [List.foldlM_cons, swapLoopStep_ok lhs rhs s u0 t0 ht0, ok_bind]
      exact hrun
    · intro u hu t hgt
      rcases List.mem_cons.mp hu with rfl | htl
      · obtain rfl : t0 = t := by
          rw [ht0] at hgt
          exact Option.some.inj hgt
        rw [hkeep u hu0tl]
        exact alGet_alPut_self _ _ _
      · refine hswap u htl t ?_
        rw [hget1 u (fun he => hu0tl (he ▸ htl))]
        exact hgt
    · intro u hu
      have hu0 : u ≠ u0 := fun he => hu (he ▸ List.mem_cons_self u0 tl)
      have hutl : u ∉ tl := fun h => hu (List.mem_cons_of_mem _ h)
      rw [hkeep u hutl]
      exact hget1 u hu0

theorem set_index_mapper_get_task (s : Scheduler) (m : List (String × ℕ))
    (u : TaskId) : (set_index_mapper s m).get_task u = s.get_task u := rfl

theorem set_index_mapper_index_tasks (s : Scheduler)
    (m : List (String × ℕ)) (idx : String) :
    (set_index_mapper s m).index_tasks idx = s.index_tasks idx := rfl

theorem set_index_mapper_get_status (s : Scheduler)
    (m : List (String × ℕ)) (st : Status) :
    (set_index_mapper s m).get_status st = s.get_status st := rfl

theorem set_index_mapper_get_kind (s : Scheduler)
    (m : List (String × ℕ)) (k : Kind) :
    (set_index_mapper s m).get_kind k = s.get_kind k := rfl

/-- **C4.** `apply_index_swap`: if either index is missing it returns
`IndexNotFound` (aborting the transaction, so no task is modified);
otherwise every task with uid `< task_id` that belongs to `lhs` or `rhs`
is rewritten through `swap_index_uid_in_task`, every other task — including
the swap task itself and every task with uid `≥ task_id` — is unchanged,
and the collected memberships are exchanged between `index_tasks[lhs]` and
`index_tasks[rhs]`. -/
theorem apply_index_swap_spec (s : Scheduler) (task_id : ℕ)
    (lhs rhs : String) :
    (alGet s.indexMapper lhs = none →
      s.apply_index_swap task_id lhs rhs = .error (.indexNotFound lhs)) ∧
    ((alGet s.indexMapper lhs).isSome → alGet s.indexMapper rhs = none →
      s.apply_index_swap task_id lhs rhs = .error (.indexNotFound rhs)) ∧
    ((alGet s.indexMapper lhs).isSome → (alGet s.indexMapper rhs).isSome →
      lhs ≠ rhs →
      (∀ u ∈ (s.get_task_ids_index lhs).filter (· < task_id) ∪
          (s.get_task_ids_index rhs).filter (· < task_id),
        ∃ t, s.get_task u = some t) →
      ∃ s', s.apply_index_swap task_id lhs rhs = .ok s' ∧
        (∀ u ∈ (s.get_task_ids_index lhs).filter (· < task_id) ∪
            (s.get_task_ids_index rhs).filter (· < task_id),
          ∀ t, s.get_task u = some t →
            s'.get_task u = some (swap_index_uid_in_task t (lhs, rhs))) ∧
        (∀ u, u ∉ (s.get_task_ids_index lhs).filter (· < task_id) ∪
            (s.get_task_ids_index rhs).filter (· < task_id) →
          s'.get_task u = s.get_task u) ∧
        (∀ u, task_id ≤ u → s'.get_task u = s.get_task u) ∧
        s'.index_tasks lhs =
          (s.index_tasks lhs \
            (s.get_task_ids_index lhs).filter (· < task_id)) ∪
            (s.get_task_ids_index rhs).filter (· < task_id) ∧
        s'.index_tasks rhs =
          (s.index_tasks rhs \
            (s.get_task_ids_index rhs).filter (· < task_id)) ∪
            (s.get_task_ids_index lhs).filter (· < task_id) ∧
        (∀ idx, idx ≠ lhs → idx ≠ rhs →
          s'.index_tasks idx = s.index_tasks idx) ∧
        (∀ st, s'.get_status st = s.get_status st) ∧
        (∀ k, s'.get_kind k = s.get_kind k)) := by
  refine ⟨?_, ?_, ?_⟩
  · intro h
    simp only [Scheduler.apply_index_swap, h]
    rfl
  · intro hl h
    simp only [Scheduler.apply_index_swap, hl, h]
    rfl
  · intro hl hr hne hex
    obtain ⟨sL, hrun, hswap, hkeep, hf1, hf2, hf3, hf4, hf5, hf6, hf7⟩ :=
      swapLoop_spec lhs rhs
        (bitmapToList ((s.get_task_ids_index lhs).filter (· < task_id) ∪
          (s.get_task_ids_index rhs).filter (· < task_id))) s
        (bitmapToList_nodup _)
        (fun u hu => hex u ((mem_bitmapToList _ u).mp hu))
    have hok : s.apply_index_swap task_id lhs rhs = Except.ok
        (set_index_mapper ((sL.update_index lhs (fun b =>
            (b \ (s.get_task_ids_index lhs).filter (· < task_id)) ∪
              (s.get_task_ids_index rhs).filter (· < task_id))).update_index
          rhs (fun b =>
            (b \ (s.get_task_ids_index rhs).filter (· < task_id)) ∪
              (s.get_task_ids_index lhs).filter (· < task_id)))
          (index_mapper_swap ((sL.update_index lhs (fun b =>
            (b \ (s.get_task_ids_index lhs).filter (· < task_id)) ∪
              (s.get_task_ids_index rhs).filter (· < task_id))).update_index
            rhs (fun b =>
            (b \ (s.get_task_ids_index rhs).filter (· < task_id)) ∪
              (s.get_task_ids_index lhs).filter (· < task_id))).indexMapper
            lhs rhs)) := by
      simp only [Scheduler.apply_index_swap, hl, hr, not_true,
        Bool.not_eq_true, Bool.true_eq_false, ite_false, not_not]
      rw [hrun, ok_bind]
      rfl
    refine ⟨_, hok, ?_, ?_, ?_, ?_, ?_, ?_, ?_, ?_⟩
    · intro u hu t hgt
      rw [set_index_mapper_get_task,
        get_task_congr ((update_index_fields _ rhs _).1) u,
        get_task_congr ((update_index_fields _ lhs _).1) u]
      exact hswap u ((mem_bitmapToList _ u).mpr hu) t hgt
    · intro u hu
      rw [set_index_mapper_get_task,
        get_task_congr ((update_index_fields _ rhs _).1) u,
        get_task_congr ((update_index_fields _ lhs _).1) u]
      exact hkeep u (fun h => hu ((mem_bitmapToList _ u).mp h))
    · intro u hu
      rw [set_index_mapper_get_task,
        get_task_congr ((update_index_fields _ rhs _).1) u,
        get_task_congr ((update_index_fields _ lhs _).1) u]
      refine hkeep u (fun h => ?_)
      rcases Finset.mem_union.mp ((mem_bitmapToList _ u).mp h) with h2 | h2
      · exact absurd hu (not_le.mpr (Finset.mem_filter.mp h2).2)
      · exact absurd hu (not_le.mpr (Finset.mem_filter.mp h2).2)
    · rw [set_index_mapper_index_tasks,
        index_tasks_update_index, if_neg hne,
        index_tasks_update_index, if_pos rfl,
        index_tasks_congr hf3 lhs]
    · rw [set_index_mapper_index_tasks,
        index_tasks_update_index, if_pos rfl,
        index_tasks_update_index, if_neg (Ne.symm hne),
        index_tasks_congr hf3 rhs]
    · intro idx hidx1 hidx2
      rw [set_index_mapper_index_tasks,
        index_tasks_update_index, if_neg hidx2,
        index_tasks_update_index, if_neg hidx1,
        index_tasks_congr hf3 idx]
    · intro st
      rw [set_index_mapper_get_status,
        get_status_congr ((update_index_fields _ rhs _).2.1) st,
        get_status_congr ((update_index_fields _ lhs _).2.1) st,
        get_status_congr hf1 st]
    · intro k
      rw [set_index_mapper_get_kind,
        get_kind_congr ((update_index_fields _ rhs _).2.2.1) k,
        get_kind_congr ((update_index_fields _ lhs _).2.2.1) k,
        get_kind_congr hf2 k]

theorem apply_index_swap_spec_witness :
    ∃ s', Scheduler.apply_index_swap
      ⟨[(0, ⟨0, 0, none, none, none, none, none, .enqueued,
          .documentClear "a"⟩),
        (1, ⟨1, 0, none, none, none, none, none, .enqueued,
          .indexSwap [("a", "b")]⟩)],
       [(Status.enqueued, {0, 1})],
       [(Kind.documentClear, {0}), (Kind.indexSwap, {1})],
       [("a", {0, 1}), ("b", {1})],
       [((0 : ℤ), {0, 1})], [], [],
       ∅, [("a", 3), ("b", 4)], true⟩ 1 "a" "b" = .ok s' ∧
      s'.get_task 0 = some ⟨0, 0, none, none, none, none, none, .enqueued,
        .documentClear "b"⟩ ∧
      s'.get_task 1 = some ⟨1, 0, none, none, none, none, none, .enqueued,
        .indexSwap [("a", "b")]⟩ ∧
      s'.index_tasks "a" = {1} ∧
      s'.index_tasks "b" = {0, 1} := by
  obtain ⟨s', hok, hswapped, hout, hge, hlhs, hrhs, hother, hst, hk⟩ :=
    (apply_index_swap_spec
      ⟨[(0, ⟨0, 0, none, none, none, none, none, .enqueued,
          .documentClear "a"⟩),
        (1, ⟨1, 0, none, none, none, none, none, .enqueued,
          .indexSwap [("a", "b")]⟩)],
       [(Status.enqueued, {0, 1})],
       [(Kind.documentClear, {0}), (Kind.indexSwap, {1})],
       [("a", {0, 1}), ("b", {1})],
       [((0 : ℤ), {0, 1})], [], [],
       ∅, [("a", 3), ("b", 4)], true⟩ 1 "a" "b").2.2
      (by decide) (by decide) (by decide)
      (fun u hu => by
        have h0 : u = 0 := by
          rw [show Finset.filter (· < 1) (Scheduler.get_task_ids_index
              ⟨[(0, ⟨0, 0, none, none, none, none, none, .enqueued,
                  .documentClear "a"⟩),
                (1, ⟨1, 0, none, none, none, none, none, .enqueued,
                  .indexSwap [("a", "b")]⟩)],
               [(Status.enqueued, {0, 1})],
               [(Kind.documentClear, {0}), (Kind.indexSwap, {1})],
               [("a", {0, 1}), ("b", {1})],
               [((0 : ℤ), {0, 1})], [], [],
               ∅, [("a", 3), ("b", 4)], true⟩ "a") ∪
            Finset.filter (· < 1) (Scheduler.get_task_ids_index
              ⟨[(0, ⟨0, 0, none, none, none, none, none, .enqueued,
                  .documentClear "a"⟩),
                (1, ⟨1, 0, none, none, none, none, none, .enqueued,
                  .indexSwap [("a", "b")]⟩)],
               [(Status.enqueued, {0, 1})],
               [(Kind.documentClear, {0}), (Kind.indexSwap, {1})],
               [("a", {0, 1}), ("b", {1})],
               [((0 : ℤ), {0, 1})], [], [],
               ∅, [("a", 3), ("b", 4)], true⟩ "b") = {0} from by decide]
            at hu
          exact Finset.mem_singleton.mp hu
        subst h0
        exact ⟨⟨0, 0, none, none, none, none, none, .enqueued,
          .documentClear "a"⟩, rfl⟩)
  refine ⟨s', hok, ?_, ?_, ?_, ?_⟩
  · rw [hswapped 0 (by decide) ⟨0, 0, none, none, none, none, none,
      .enqueued, .documentClear "a"⟩ rfl]
    rfl
  · rw [hge 1 (le_refl 1)]
    rfl
  · rw [hlhs]
    decide
  · rw [hrhs]
    decide

/-! ## Theorems: claims C3 and C5 (create_next_batch) -/

theorem err_bind {ε α β : Type} (e : ε) (f : α → Except ε β) :
    ((Except.error e : Except ε α) >>= f) = Except.error e := rfl

theorem getTaskOrCorrupt_ok (s : Scheduler) (u : TaskId) (t : Task)
    (h : s.get_task u = some t) : getTaskOrCorrupt s u = .ok t := by
  unfold getTaskOrCorrupt
  rw [h]

theorem getTaskOrCorrupt_none (s : Scheduler) (u : TaskId)
    (h : s.get_task u = none) :
    getTaskOrCorrupt s u = .error .corruptedTaskQueue := by
  unfold getTaskOrCorrupt
  rw [h]

theorem getTaskOrCorrupt_inv (s : Scheduler) (u : TaskId) (t : Task)
    (h : getTaskOrCorrupt s u = .ok t) : s.get_task u = some t := by
  unfold getTaskOrCorrupt at h
  cases hg : s.get_task u with
  | none => rw [hg] at h; exact Except.noConfusion h
  | some t2 =>
    rw [hg] at h
    rw [Except.ok.inj h]

theorem bmMax_empty : bmMax ∅ = none := by
  simp [bmMax]

theorem bmMin_empty : bmMin ∅ = none := by
  simp [bmMin]

theorem bmMin_spec (bm : Finset ℕ) (m : ℕ) (h : bmMin bm = some m) :
    m ∈ bm ∧ ∀ x ∈ bm, m ≤ x := by
  unfold bmMin at h
  split at h
  · obtain rfl := Option.some.inj h
    exact ⟨Finset.min'_mem _ _, fun x hx => Finset.min'_le _ _ hx⟩
  · exact Option.noConfusion h

theorem get_existing_tasks_map_uid (s : Scheduler)
    (huid : ∀ u t, s.get_task u = some t → t.uid = u) :
    ∀ l ts, s.get_existing_tasks l = .ok ts → ts.map Task.uid = l := by
  intro l
  induction l with
  | nil =>
    intro ts h
    obtain rfl : ([] : List Task) = ts := Except.ok.inj h
    rfl
  | cons a l ih =>
    intro ts h
    unfold Scheduler.get_existing_tasks at h
    rw [List.mapM_cons] at h
    cases hga : s.get_task a with
    | none =>
      rw [getTaskOrCorrupt_none s a hga, err_bind] at h
      exact Except.noConfusion h
    | some t =>
      rw [getTaskOrCorrupt_ok s a t hga, ok_bind] at h
      cases hrest : List.mapM (getTaskOrCorrupt s) l with
      | error e =>
        rw [hrest, err_bind] at h
        exact Except.noConfusion h
      | ok ys =>
        rw [hrest, ok_bind] at h
        obtain rfl : t :: ys = ts := Except.ok.inj h
        rw [List.map_cons, huid a t hga, ih ys hrest]

theorem filter_range_head (p : ℕ → Bool) (m : ℕ)
    (hpm : p m = true) (hlt : ∀ k, k < m → p k = false) :
    ∀ N, m < N → ∃ rest, (List.range N).filter p = m :: rest := by
  intro N
  induction N with
  | zero => intro h; exact absurd h (Nat.not_lt_zero m)
  | succ n ih =>
    intro h
    rw [List.range_succ, List.filter_append]
    rcases Nat.lt_or_ge m n with h2 | h2
    · obtain ⟨rest, hr⟩ := ih h2
      exact ⟨rest ++ [n].filter p, by rw [hr]; rfl⟩
    · obtain rfl : m = n := Nat.le_antisymm (Nat.lt_succ_iff.mp h) h2
      have h1 : (List.range m).filter p = [] := by
        rw [List.filter_eq_nil_iff]
        intro a ha
        simp [hlt a (List.mem_range.mp ha)]
      rw [h1, List.nil_append]
      refine ⟨[], ?_⟩
      simp [List.filter, hpm]

theorem bitmapToList_cons (bm : Finset ℕ) (m : ℕ) (hm : m ∈ bm)
    (hmin : ∀ x ∈ bm, m ≤ x) :
    ∃ rest, bitmapToList bm = m :: rest := by
  unfold bitmapToList
  refine filter_range_head _ m ?_ ?_ _ ?_
  · simp [hm]
  · intro k hk
    simp only [decide_eq_false_iff_not]
    intro hkm
    exact absurd (hmin k hkm) (Nat.not_le.mpr hk)
  · exact Nat.lt_succ_of_le (Finset.le_sup (f := id) hm)

theorem autobatchStart_mem (u : TaskId) (k : KindWithContent) (ex : Bool)
    (acc : BatchKind) (mc keep : Bool)
    (h : autobatchStart u k ex = some (acc, mc, keep)) :
    u ∈ acc.kindIds := by
  cases k <;>
    first
      | (simp only [autobatchStart] at h; exact Option.noConfusion h)
      | (simp only [autobatchStart, Option.some.injEq, Prod.mk.injEq] at h
         obtain ⟨rfl, rfl, rfl⟩ := h
         simp [BatchKind.kindIds])

theorem autobatchStart_kindIds (u : TaskId) (k : KindWithContent)
    (ex : Bool) (acc : BatchKind) (mc keep : Bool)
    (h : autobatchStart u k ex = some (acc, mc, keep)) :
    acc.kindIds = [u] := by
  cases k <;>
    first
      | (simp only [autobatchStart] at h; exact Option.noConfusion h)
      | (simp only [autobatchStart, Option.some.injEq, Prod.mk.injEq] at h
         obtain ⟨rfl, rfl, rfl⟩ := h
         simp [BatchKind.kindIds])

theorem autobatchStart_isSome (u : TaskId) (k : KindWithContent)
    (ex : Bool) (n : String) (r : List String)
    (h : k.indexes = some (n :: r)) :
    ∃ acc mc keep, autobatchStart u k ex = some (acc, mc, keep) := by
  cases k <;> simp only [KindWithContent.indexes] at h <;>
    first
      | exact Option.noConfusion h
      | exact ⟨_, _, _, rfl⟩

theorem autobatchAccumulate_mono (acc : BatchKind) (u : TaskId)
    (k : KindWithContent) (acc2 : BatchKind)
    (h : autobatchAccumulate acc u k = some acc2) :
    ∀ x ∈ acc.kindIds, x ∈ acc2.kindIds := by
  intro x hx
  cases acc <;> cases k <;> simp only [autobatchAccumulate] at h <;>
    first
      | exact Option.noConfusion h
      | (obtain rfl := Option.some.inj h
         simp only [BatchKind.kindIds, List.mem_append,
           List.mem_singleton] at hx ⊢
         tauto)
      | (split at h <;>
          first
            | exact Option.noConfusion h
            | (obtain rfl := Option.some.inj h
               simp only [BatchKind.kindIds, List.mem_append,
                 List.mem_singleton] at hx ⊢
               tauto))

theorem autobatchLoop_mem (l : List (TaskId × KindWithContent)) :
    ∀ acc x, x ∈ acc.kindIds → x ∈ (autobatchLoop acc l).kindIds := by
  induction l with
  | nil => intro acc x hx; exact hx
  | cons p tl ih =>
    intro acc x hx
    obtain ⟨u, k⟩ := p
    cases hacc : autobatchAccumulate acc u k with
    | none =>
      have h2 : autobatchLoop acc ((u, k) :: tl) = acc := by
        unfold autobatchLoop
        rw [hacc]
      rw [h2]
      exact hx
    | some acc2 =>
      have h2 : autobatchLoop acc ((u, k) :: tl) = autobatchLoop acc2 tl := by
        conv_lhs => unfold autobatchLoop
        rw [hacc]
      rw [h2]
      exact ih acc2 x (autobatchAccumulate_mono acc u k acc2 hacc x hx)

theorem autobatch_mem (u : TaskId) (k : KindWithContent)
    (rest : List (TaskId × KindWithContent)) (ex : Bool) (bk : BatchKind)
    (ci : Bool) (h : autobatch ((u, k) :: rest) ex = some (bk, ci)) :
    u ∈ bk.kindIds := by
  unfold autobatch at h
  cases hst : autobatchStart u k ex with
  | none =>
    simp only [hst] at h
    exact Option.noConfusion h
  | some trip =>
    obtain ⟨acc, mc, keep⟩ := trip
    simp only [hst] at h
    have hmem := autobatchStart_mem u k ex acc mc keep hst
    cases keep with
    | false =>
      simp at h
      obtain ⟨rfl, rfl⟩ := h
      exact hmem
    | true =>
      simp at h
      obtain ⟨rfl, rfl⟩ := h
      exact autobatchLoop_mem rest acc u hmem

theorem autobatch_singleton (u : TaskId) (k : KindWithContent) (ex : Bool)
    (bk : BatchKind) (ci : Bool)
    (h : autobatch [(u, k)] ex = some (bk, ci)) : bk.kindIds = [u] := by
  unfold autobatch at h
  cases hst : autobatchStart u k ex with
  | none =>
    simp only [hst] at h
    exact Option.noConfusion h
  | some trip =>
    obtain ⟨acc, mc, keep⟩ := trip
    simp only [hst] at h
    have hk := autobatchStart_kindIds u k ex acc mc keep hst
    cases keep with
    | false =>
      simp at h
      obtain ⟨rfl, rfl⟩ := h
      exact hk
    | true =>
      simp at h
      obtain ⟨rfl, rfl⟩ := h
      exact hk

theorem create_next_batch_index_ok (s : Scheduler)
    (huid : ∀ u t, s.get_task u = some t → t.uid = u)
    (iu : String) (bk : BatchKind) (ci : Bool) (r : Option Batch)
    (h : s.create_next_batch_index iu bk ci = .ok r) :
    ∃ b, r = some b ∧ b.ids = bk.kindIds := by
  cases bk with
  | documentClear ids =>
    simp only [Scheduler.create_next_batch_index] at h
    cases hge : s.get_existing_tasks ids with
    | error e => rw [hge, err_bind] at h; exact Except.noConfusion h
    | ok ts =>
      rw [hge, ok_bind] at h
      obtain rfl := (Except.ok.inj h).symm
      refine ⟨_, rfl, ?_⟩
      simp only [Batch.ids, BatchKind.kindIds]
      exact get_existing_tasks_map_uid s huid ids ts hge
  | documentImport method allow import_ids =>
    simp only [Scheduler.create_next_batch_index] at h
    cases hge : s.get_existing_tasks import_ids with
    | error e => rw [hge, err_bind] at h; exact Except.noConfusion h
    | ok ts =>
      rw [hge, ok_bind] at h
      cases hpk : importHeadPk ts with
      | error e => rw [hpk, err_bind] at h; exact Except.noConfusion h
      | ok pk =>
        rw [hpk, ok_bind] at h
        cases hci : collectImport ts with
        | error e => rw [hci, err_bind] at h; exact Except.noConfusion h
        | ok dccf =>
          rw [hci, ok_bind] at h
          obtain rfl := (Except.ok.inj h).symm
          refine ⟨_, rfl, ?_⟩
          simp only [Batch.ids, BatchKind.kindIds]
          exact get_existing_tasks_map_uid s huid import_ids ts hge
  | documentDeletion deletion_ids =>
    simp only [Scheduler.create_next_batch_index] at h
    cases hge : s.get_existing_tasks deletion_ids with
    | error e => rw [hge, err_bind] at h; exact Except.noConfusion h
    | ok ts =>
      rw [hge, ok_bind] at h
      cases hcd : collectDeletionDocs ts with
      | error e => rw [hcd, err_bind] at h; exact Except.noConfusion h
      | ok docs =>
        rw [hcd, ok_bind] at h
        obtain rfl := (Except.ok.inj h).symm
        refine ⟨_, rfl, ?_⟩
        simp only [Batch.ids, BatchKind.kindIds]
        exact get_existing_tasks_map_uid s huid deletion_ids ts hge
  | settings settings_ids allow =>
    simp only [Scheduler.create_next_batch_index] at h
    cases hge : s.get_existing_tasks settings_ids with
    | error e => rw [hge, err_bind] at h; exact Except.noConfusion h
    | ok ts =>
      rw [hge, ok_bind] at h
      cases hcs : collectSettings ts with
      | error e => rw [hcs, err_bind] at h; exact Except.noConfusion h
      | ok ss =>
        rw [hcs, ok_bind] at h
        obtain rfl := (Except.ok.inj h).symm
        refine ⟨_, rfl, ?_⟩
        simp only [Batch.ids, BatchKind.kindIds]
        exact get_existing_tasks_map_uid s huid settings_ids ts hge
  | clearAndSettings other settings_ids allow =>
    simp only [Scheduler.create_next_batch_index] at h
    cases hgs : s.get_existing_tasks settings_ids with
    | error e => rw [hgs, err_bind] at h; exact Except.noConfusion h
    | ok sts =>
      rw [hgs, ok_bind] at h
      cases hcs : collectSettings sts with
      | error e => rw [hcs, err_bind] at h; exact Except.noConfusion h
      | ok ss =>
        rw [hcs, ok_bind] at h
        cases hgc : s.get_existing_tasks other with
        | error e => rw [hgc, err_bind] at h; exact Except.noConfusion h
        | ok cts =>
          rw [hgc, ok_bind] at h
          obtain rfl := (Except.ok.inj h).symm
          refine ⟨_, rfl, ?_⟩
          simp only [Batch.ids, BatchKind.kindIds, List.map_append]
          rw [get_existing_tasks_map_uid s huid other cts hgc,
            get_existing_tasks_map_uid s huid settings_ids sts hgs]
  | settingsAndDocumentImport settings_ids method allow import_ids =>
    simp only [Scheduler.create_next_batch_index] at h
    cases hgs : s.get_existing_tasks settings_ids with
    | error e => rw [hgs, err_bind] at h; exact Except.noConfusion h
    | ok sts =>
      rw [hgs, ok_bind] at h
      cases hcs : collectSettings sts with
      | error e => rw [hcs, err_bind] at h; exact Except.noConfusion h
      | ok ss =>
        rw [hcs, ok_bind] at h
        cases hgi : s.get_existing_tasks import_ids with
        | error e => rw [hgi, err_bind] at h; exact Except.noConfusion h
        | ok its =>
          rw [hgi, ok_bind] at h
          cases hpk : importHeadPk its with
          | error e => rw [hpk, err_bind] at h; exact Except.noConfusion h
          | ok pk =>
            rw [hpk, ok_bind] at h
            cases hci : collectImport its with
            | error e => rw [hci, err_bind] at h; exact Except.noConfusion h
            | ok dccf =>
              rw [hci, ok_bind] at h
              obtain rfl := (Except.ok.inj h).symm
              refine ⟨_, rfl, ?_⟩
              simp only [Batch.ids, BatchKind.kindIds, List.map_append]
              rw [get_existing_tasks_map_uid s huid import_ids its hgi,
                get_existing_tasks_map_uid s huid settings_ids sts hgs]
  | indexCreation u =>
    simp only [Scheduler.create_next_batch_index] at h
    cases hgt : getTaskOrCorrupt s u with
    | error e => rw [hgt, err_bind] at h; exact Except.noConfusion h
    | ok task =>
      rw [hgt, ok_bind] at h
      cases hcp : creationPayload task with
      | error e => rw [hcp, err_bind] at h; exact Except.noConfusion h
      | ok payload =>
        rw [hcp, ok_bind] at h
        obtain rfl := (Except.ok.inj h).symm
        refine ⟨_, rfl, ?_⟩
        simp only [Batch.ids, BatchKind.kindIds]
        rw [huid u task (getTaskOrCorrupt_inv s u task hgt)]
  | indexUpdate u =>
    simp only [Scheduler.create_next_batch_index] at h
    cases hgt : getTaskOrCorrupt s u with
    | error e => rw [hgt, err_bind] at h; exact Except.noConfusion h
    | ok task =>
      rw [hgt, ok_bind] at h
      cases hup : updatePayload task with
      | error e => rw [hup, err_bind] at h; exact Except.noConfusion h
      | ok pk =>
        rw [hup, ok_bind] at h
        obtain rfl := (Except.ok.inj h).symm
        refine ⟨_, rfl, ?_⟩
        simp only [Batch.ids, BatchKind.kindIds]
        rw [huid u task (getTaskOrCorrupt_inv s u task hgt)]
  | indexDeletion ids =>
    simp only [Scheduler.create_next_batch_index] at h
    cases hge : s.get_existing_tasks ids with
    | error e => rw [hge, err_bind] at h; exact Except.noConfusion h
    | ok ts =>
      rw [hge, ok_bind] at h
      obtain rfl := (Except.ok.inj h).symm
      refine ⟨_, rfl, ?_⟩
      simp only [Batch.ids, BatchKind.kindIds]
      exact get_existing_tasks_map_uid s huid ids ts hge
  | indexSwap u =>
    simp only [Scheduler.create_next_batch_index] at h
    cases hgt : getTaskOrCorrupt s u with
    | error e => rw [hgt, err_bind] at h; exact Except.noConfusion h
    | ok task =>
      rw [hgt, ok_bind] at h
      obtain rfl := (Except.ok.inj h).symm
      refine ⟨_, rfl, ?_⟩
      simp only [Batch.ids, BatchKind.kindIds]
      rw [huid u task (getTaskOrCorrupt_inv s u task hgt)]

theorem ok_map {ε α β : Type} (a : α) (f : α → β) :
    Except.map f (Except.ok a : Except ε α) = .ok (f a) := rfl

theorem bind_cons_ok {ε α β : Type} (A : Except ε (List α)) (p : α)
    (g : List α → Except ε β) (r : β)
    (h : ((A >>= fun xs => pure (p :: xs)) >>= g) = .ok r) :
    ∃ xs, A = .ok xs ∧ g (p :: xs) = .ok r := by
  cases A with
  | error e =>
    rw [err_bind, err_bind] at h
    exact Except.noConfusion h
  | ok xs =>
    rw [ok_bind] at h
    exact ⟨xs, rfl, h⟩

/-- **C3.** `create_next_batch` obeys the strict selection priority: with
`E` the `Enqueued` bitmap, (1) if any `TaskCancelation` is enqueued, the one
with maximum uid is returned alone; (2) else if any `TaskDeletion` is
enqueued, the one with minimum uid; (3) else all enqueued `Snapshot` tasks as
one batch; (4) else the minimum-uid enqueued `DumpExport`; (5) else any batch
built is a per-index batch containing the oldest (minimum-uid) enqueued
task; (6) an empty queue yields `None`, and (7) under store consistency
(every enqueued task exists, the oldest task's kind names an index whose
`index_tasks` bitmap contains it), `None` is returned only when the queue is
empty. -/
theorem create_next_batch_spec (s : Scheduler) (E : Finset ℕ)
    (hE : E = s.get_status .enqueued)
    (huid : ∀ u t, s.get_task u = some t → t.uid = u) :
    (∀ m t, bmMax (s.get_kind .taskCancelation ∩ E) = some m →
      s.get_task m = some t →
      s.create_next_batch = .ok (some (.taskCancelation t))) ∧
    (s.get_kind .taskCancelation ∩ E = ∅ →
      ∀ m t, bmMin (s.get_kind .taskDeletion ∩ E) = some m →
      s.get_task m = some t →
      s.create_next_batch = .ok (some (.taskDeletion t))) ∧
    (s.get_kind .taskCancelation ∩ E = ∅ →
      s.get_kind .taskDeletion ∩ E = ∅ →
      s.get_kind .snapshot ∩ E ≠ ∅ →
      ∀ ts, s.get_existing_tasks (bitmapToList (s.get_kind .snapshot ∩ E)) =
          .ok ts →
      s.create_next_batch = .ok (some (.snapshot ts))) ∧
    (s.get_kind .taskCancelation ∩ E = ∅ →
      s.get_kind .taskDeletion ∩ E = ∅ →
      s.get_kind .snapshot ∩ E = ∅ →
      ∀ m t, bmMin (s.get_kind .dumpExport ∩ E) = some m →
      s.get_task m = some t →
      s.create_next_batch = .ok (some (.dump t))) ∧
    (s.get_kind .taskCancelation ∩ E = ∅ →
      s.get_kind .taskDeletion ∩ E = ∅ →
      s.get_kind .snapshot ∩ E = ∅ →
      s.get_kind .dumpExport ∩ E = ∅ →
      ∀ tid, bmMin E = some tid →
      (∀ t, s.get_task tid = some t → ∀ n r, t.indexes = some (n :: r) →
        tid ∈ s.index_tasks n) →
      ∀ b, s.create_next_batch = .ok (some b) → tid ∈ b.ids) ∧
    (E = ∅ → s.create_next_batch = .ok none) ∧
    (s.get_kind .taskCancelation ∩ E = ∅ →
      s.get_kind .taskDeletion ∩ E = ∅ →
      s.get_kind .snapshot ∩ E = ∅ →
      s.get_kind .dumpExport ∩ E = ∅ →
      (∀ u ∈ E, ∃ t, s.get_task u = some t) →
      (∀ tid t, bmMin E = some tid → s.get_task tid = some t →
        (∃ n r, t.indexes = some (n :: r)) ∧
        (∀ n r, t.indexes = some (n :: r) → tid ∈ s.index_tasks n)) →
      s.create_next_batch = .ok none → E = ∅) := by
  subst hE
  refine ⟨?_, ?_, ?_, ?_, ?_, ?_, ?_⟩
  · intro m t hmax hget
    simp only [Scheduler.create_next_batch, hmax]
    rw [getTaskOrCorrupt_ok s m t hget, ok_bind]
    rfl
  · intro h1 m t hmin hget
    simp only [Scheduler.create_next_batch, h1, bmMax_empty, hmin]
    rw [getTaskOrCorrupt_ok s m t hget, ok_bind]
    rfl
  · intro h1 h2 h3 ts hts
    simp only [Scheduler.create_next_batch, h1, h2, bmMax_empty, bmMin_empty]
    rw [if_pos h3, hts, ok_bind]
    rfl
  · intro h1 h2 h3 m t hmin hget
    simp only [Scheduler.create_next_batch, h1, h2, h3, bmMax_empty,
      bmMin_empty]
    rw [if_neg (fun hc => hc trivial)]
    simp only [hmin]
    rw [getTaskOrCorrupt_ok s m t hget, ok_bind]
    rfl
  · intro h1 h2 h3 h4 tid hmin hidx b hb
    simp only [Scheduler.create_next_batch, h1, h2, h3, h4, bmMax_empty,
      bmMin_empty] at hb
    simp only [hmin] at hb
    cases hgt : getTaskOrCorrupt s tid with
    | error e =>
      rw [hgt, err_bind] at hb
      exact Except.noConfusion hb
    | ok task =>
      rw [hgt, ok_bind] at hb
      have hget := getTaskOrCorrupt_inv s tid task hgt
      cases hti : task.indexes with
      | none =>
        simp only [hti] at hb
        exact Except.noConfusion hb
      | some names =>
        cases names with
        | nil =>
          simp only [hti] at hb
          exact Except.noConfusion hb
        | cons n rest_names =>
          simp only [hti] at hb
          obtain ⟨hmem_min, hmin_le⟩ :=
            bmMin_spec (s.get_status .enqueued) tid hmin
          have htid_in : tid ∈ s.index_tasks n ∩ s.get_status .enqueued :=
            Finset.mem_inter.mpr ⟨hidx task hget n rest_names hti, hmem_min⟩
          obtain ⟨restL, hcons⟩ :=
            bitmapToList_cons (s.index_tasks n ∩ s.get_status .enqueued) tid
              htid_in
              (fun x hx => hmin_le x (Finset.mem_inter.mp hx).2)
          cases hae : s.autobatching_enabled with
          | true =>
            simp only [hae] at hb
            rw [hcons, List.mapM_cons, getTaskOrCorrupt_ok s tid task hget,
              ok_map, ok_bind, huid tid task hget] at hb
            obtain ⟨prs, -, hg⟩ := bind_cons_ok _ _ _ _ hb
            cases hab : autobatch ((tid, task.kind) :: prs)
                ((alGet s.indexMapper n).isSome) with
            | none =>
              simp only [hab] at hg
              exact Option.noConfusion (Except.ok.inj hg)
            | some pr =>
              obtain ⟨bk, ci⟩ := pr
              simp only [hab] at hg
              obtain ⟨b2, hb2, hids⟩ :=
                create_next_batch_index_ok s huid n bk ci (some b) hg
              obtain rfl := Option.some.inj hb2
              rw [hids]
              exact autobatch_mem tid task.kind prs _ bk ci hab
          | false =>
            simp only [hae] at hb
            have htake : List.take 1 (tid :: restL) = [tid] := by simp
            rw [hcons, htake,
              List.mapM_cons, getTaskOrCorrupt_ok s tid task hget,
              ok_map, ok_bind, huid tid task hget] at hb
            obtain ⟨prs, -, hg⟩ := bind_cons_ok _ _ _ _ hb
            cases hab : autobatch ((tid, task.kind) :: prs)
                ((alGet s.indexMapper n).isSome) with
            | none =>
              simp only [hab] at hg
              exact Option.noConfusion (Except.ok.inj hg)
            | some pr =>
              obtain ⟨bk, ci⟩ := pr
              simp only [hab] at hg
              obtain ⟨b2, hb2, hids⟩ :=
                create_next_batch_index_ok s huid n bk ci (some b) hg
              obtain rfl := Option.some.inj hb2
              rw [hids]
              exact autobatch_mem tid task.kind prs _ bk ci hab
  · intro h6
    simp only [Scheduler.create_next_batch, h6, Finset.inter_empty,
      bmMax_empty, bmMin_empty]
    rw [if_neg (fun hc => hc trivial)]
    rfl
  · intro h1 h2 h3 h4 hexist hminwf hres
    by_contra hne
    obtain ⟨tid, hminE⟩ : ∃ tid, bmMin (s.get_status .enqueued) = some tid := by
      have hnonempty : (s.get_status .enqueued).Nonempty :=
        Finset.nonempty_iff_ne_empty.mpr hne
      refine ⟨(s.get_status .enqueued).min' hnonempty, ?_⟩
      unfold bmMin
      rw [dif_pos hnonempty]
    simp only [Scheduler.create_next_batch, h1, h2, h3, h4, bmMax_empty,
      bmMin_empty] at hres
    simp only [hminE] at hres
    obtain ⟨hmem_min, hmin_le⟩ := bmMin_spec (s.get_status .enqueued) tid hminE
    obtain ⟨task, hget⟩ := hexist tid hmem_min
    rw [getTaskOrCorrupt_ok s tid task hget, ok_bind] at hres
    obtain ⟨⟨n, r, hti⟩, hidxmem⟩ := hminwf tid task hminE hget
    simp only [hti] at hres
    have htid_in : tid ∈ s.index_tasks n ∩ s.get_status .enqueued :=
      Finset.mem_inter.mpr ⟨hidxmem n r hti, hmem_min⟩
    obtain ⟨restL, hcons⟩ :=
      bitmapToList_cons (s.index_tasks n ∩ s.get_status .enqueued) tid
        htid_in (fun x hx => hmin_le x (Finset.mem_inter.mp hx).2)
    obtain ⟨acc, mc, keep, hst⟩ :=
      autobatchStart_isSome tid task.kind ((alGet s.indexMapper n).isSome)
        n r hti
    cases hae : s.autobatching_enabled with
    | true =>
      simp only [hae] at hres
      rw [hcons, List.mapM_cons, getTaskOrCorrupt_ok s tid task hget,
        ok_map, ok_bind, huid tid task hget] at hres
      obtain ⟨prs, -, hg⟩ := bind_cons_ok _ _ _ _ hres
      cases hab : autobatch ((tid, task.kind) :: prs)
          ((alGet s.indexMapper n).isSome) with
      | some pr =>
        obtain ⟨bk, ci⟩ := pr
        simp only [hab] at hg
        obtain ⟨b2, hb2, -⟩ :=
          create_next_batch_index_ok s huid n bk ci none hg
        exact Option.noConfusion hb2
      | none =>
        unfold autobatch at hab
        simp only [hst] at hab
        cases keep with
        | false => simp at hab
        | true => simp at hab
    | false =>
      simp only [hae] at hres
      have htake : List.take 1 (tid :: restL) = [tid] := by simp
      rw [hcons, htake,
        List.mapM_cons, getTaskOrCorrupt_ok s tid task hget,
        ok_map, ok_bind, huid tid task hget] at hres
      obtain ⟨prs, -, hg⟩ := bind_cons_ok _ _ _ _ hres
      cases hab : autobatch ((tid, task.kind) :: prs)
          ((alGet s.indexMapper n).isSome) with
      | some pr =>
        obtain ⟨bk, ci⟩ := pr
        simp only [hab] at hg
        obtain ⟨b2, hb2, -⟩ :=
          create_next_batch_index_ok s huid n bk ci none hg
        exact Option.noConfusion hb2
      | none =>
        unfold autobatch at hab
        simp only [hst] at hab
        cases keep with
        | false => simp at hab
        | true => simp at hab

theorem alGet_key_prop {κ β : Type} [DecidableEq κ] (P : κ → β → Prop)
    (l : List (κ × β)) (hl : ∀ p ∈ l, P p.1 p.2) :
    ∀ u t, alGet l u = some t → P u t := by
  induction l with
  | nil => intro u t h; exact Option.noConfusion h
  | cons p tl ih =>
    intro u t h
    unfold alGet at h
    split at h
    · next he =>
      obtain rfl := Option.some.inj h
      exact he ▸ hl p (List.mem_cons_self p tl)
    · exact ih (fun q hq => hl q (List.mem_cons_of_mem p hq)) u t h

theorem create_next_batch_spec_witness :
    Scheduler.create_next_batch
      ⟨[(0, ⟨0, 0, none, none, none, none, none, .enqueued,
          .documentClear "a"⟩),
        (1, ⟨1, 0, none, none, none, none, none, .enqueued,
          .taskCancelation "q" {0}⟩)],
       [(Status.enqueued, {0, 1})],
       [(Kind.documentClear, {0}), (Kind.taskCancelation, {1})],
       [("a", {0})], [((0 : ℤ), {0, 1})], [], [],
       ∅, [("a", 3)], true⟩ =
      .ok (some (.taskCancelation ⟨1, 0, none, none, none, none, none,
        .enqueued, .taskCancelation "q" {0}⟩)) := by
  exact (create_next_batch_spec
    ⟨[(0, ⟨0, 0, none, none, none, none, none, .enqueued,
        .documentClear "a"⟩),
      (1, ⟨1, 0, none, none, none, none, none, .enqueued,
        .taskCancelation "q" {0}⟩)],
     [(Status.enqueued, {0, 1})],
     [(Kind.documentClear, {0}), (Kind.taskCancelation, {1})],
     [("a", {0})], [((0 : ℤ), {0, 1})], [], [],
     ∅, [("a", 3)], true⟩ {0, 1} (by decide)
    (alGet_key_prop (fun (u : TaskId) (t : Task) => t.uid = u) _ (by decide))).1
    1 ⟨1, 0, none, none, none, none, none, .enqueued,
      .taskCancelation "q" {0}⟩
    (by decide) rfl

/-- **C5.** When `autobatching_enabled` is false, every per-index batch built
by `create_next_batch` (steps 1-4 having found nothing) contains exactly one
task: only one `(uid, kind)` pair is passed to the autobatcher (`take(1)`),
so the resulting batch's `ids` is a singleton. -/
theorem create_next_batch_no_autobatching_singleton (s : Scheduler)
    (E : Finset ℕ) (hE : E = s.get_status .enqueued)
    (huid : ∀ u t, s.get_task u = some t → t.uid = u)
    (hauto : s.autobatching_enabled = false)
    (h1 : s.get_kind .taskCancelation ∩ E = ∅)
    (h2 : s.get_kind .taskDeletion ∩ E = ∅)
    (h3 : s.get_kind .snapshot ∩ E = ∅)
    (h4 : s.get_kind .dumpExport ∩ E = ∅) :
    ∀ b, s.create_next_batch = .ok (some b) → b.ids.length = 1 := by
  subst hE
  intro b hb
  simp only [Scheduler.create_next_batch, h1, h2, h3, h4, bmMax_empty,
    bmMin_empty] at hb
  cases hminE : bmMin (s.get_status .enqueued) with
  | none =>
    simp only [hminE] at hb
    exact Option.noConfusion (Except.ok.inj hb)
  | some tid =>
    simp only [hminE] at hb
    cases hgt : getTaskOrCorrupt s tid with
    | error e =>
      rw [hgt, err_bind] at hb
      exact Except.noConfusion hb
    | ok task =>
      rw [hgt, ok_bind] at hb
      cases hti : task.indexes with
      | none =>
        simp only [hti] at hb
        exact Except.noConfusion hb
      | some names =>
        cases names with
        | nil =>
          simp only [hti] at hb
          exact Except.noConfusion hb
        | cons n rest_names =>
          simp only [hti, hauto] at hb
          cases hbl : bitmapToList
              (s.index_tasks n ∩ s.get_status .enqueued) with
          | nil =>
            rw [hbl] at hb
            simp only [List.take_nil, List.mapM_nil, pure_bind] at hb
            simp only [autobatch] at hb
            exact Option.noConfusion (Except.ok.inj hb)
          | cons tid2 rest2 =>
            have htake : List.take 1 (tid2 :: rest2) = [tid2] := by simp
            rw [hbl, htake] at hb
            cases hg2 : getTaskOrCorrupt s tid2 with
            | error e =>
              rw [List.mapM_cons, hg2] at hb
              simp only [Except.map] at hb
              rw [err_bind, err_bind] at hb
              exact Except.noConfusion hb
            | ok t2 =>
              rw [List.mapM_cons, hg2, ok_map, ok_bind, List.mapM_nil,
                huid tid2 t2 (getTaskOrCorrupt_inv s tid2 t2 hg2)] at hb
              obtain ⟨prs, hA, hg⟩ := bind_cons_ok _ _ _ _ hb
              obtain rfl : ([] : List (TaskId × KindWithContent)) = prs :=
                Except.ok.inj hA
              cases hab : autobatch [(tid2, t2.kind)]
                  ((alGet s.indexMapper n).isSome) with
              | none =>
                simp only [hab] at hg
                exact Option.noConfusion (Except.ok.inj hg)
              | some pr =>
                obtain ⟨bk, ci⟩ := pr
                simp only [hab] at hg
                obtain ⟨b2, hb2, hids⟩ :=
                  create_next_batch_index_ok s huid n bk ci (some b) hg
                obtain rfl := Option.some.inj hb2
                rw [hids, autobatch_singleton tid2 t2.kind _ bk ci hab]
                rfl

theorem create_next_batch_no_autobatching_singleton_witness :
    Scheduler.create_next_batch
      ⟨[(0, ⟨0, 0, none, none, none, none, none, .enqueued,
          .documentAdditionOrUpdate "a" none .replaceDocuments 9 5 true⟩),
        (1, ⟨1, 0, none, none, none, none, none, .enqueued,
          .documentAdditionOrUpdate "a" none .replaceDocuments 10 6 true⟩),
        (2, ⟨2, 0, none, none, none, none, none, .enqueued,
          .documentAdditionOrUpdate "a" none .replaceDocuments 11 7 true⟩)],
       [(Status.enqueued, {0, 1, 2})],
       [(Kind.documentAdditionOrUpdate, {0, 1, 2})],
       [("a", {0, 1, 2})], [((0 : ℤ), {0, 1, 2})], [], [],
       ∅, [("a", 7)], false⟩ =
      .ok (some (.indexOperation (.documentImport "a" none
        .replaceDocuments [5] [9]
        [⟨0, 0, none, none, none, none, none, .enqueued,
          .documentAdditionOrUpdate "a" none .replaceDocuments 9 5 true⟩])
        false)) ∧
    (Batch.indexOperation (.documentImport "a" none
        .replaceDocuments [5] [9]
        [⟨0, 0, none, none, none, none, none, .enqueued,
          .documentAdditionOrUpdate "a" none .replaceDocuments 9 5 true⟩])
        false).ids.length = 1 := by
  have hrun : Scheduler.create_next_batch
      ⟨[(0, ⟨0, 0, none, none, none, none, none, .enqueued,
          .documentAdditionOrUpdate "a" none .replaceDocuments 9 5 true⟩),
        (1, ⟨1, 0, none, none, none, none, none, .enqueued,
          .documentAdditionOrUpdate "a" none .replaceDocuments 10 6 true⟩),
        (2, ⟨2, 0, none, none, none, none, none, .enqueued,
          .documentAdditionOrUpdate "a" none .replaceDocuments 11 7 true⟩)],
       [(Status.enqueued, {0, 1, 2})],
       [(Kind.documentAdditionOrUpdate, {0, 1, 2})],
       [("a", {0, 1, 2})], [((0 : ℤ), {0, 1, 2})], [], [],
       ∅, [("a", 7)], false⟩ =
      .ok (some (.indexOperation (.documentImport "a" none
        .replaceDocuments [5] [9]
        [⟨0, 0, none, none, none, none, none, .enqueued,
          .documentAdditionOrUpdate "a" none .replaceDocuments 9 5 true⟩])
        false)) := by rfl
  refine ⟨hrun, ?_⟩
  exact create_next_batch_no_autobatching_singleton
    ⟨[(0, ⟨0, 0, none, none, none, none, none, .enqueued,
        .documentAdditionOrUpdate "a" none .replaceDocuments 9 5 true⟩),
      (1, ⟨1, 0, none, none, none, none, none, .enqueued,
        .documentAdditionOrUpdate "a" none .replaceDocuments 10 6 true⟩),
      (2, ⟨2, 0, none, none, none, none, none, .enqueued,
        .documentAdditionOrUpdate "a" none .replaceDocuments 11 7 true⟩)],
     [(Status.enqueued, {0, 1, 2})],
     [(Kind.documentAdditionOrUpdate, {0, 1, 2})],
     [("a", {0, 1, 2})], [((0 : ℤ), {0, 1, 2})], [], [],
     ∅, [("a", 7)], false⟩ {0, 1, 2} (by decide)
    (alGet_key_prop (fun (u : TaskId) (t : Task) => t.uid = u) _ (by decide))
    rfl (by decide) (by decide) (by decide) (by decide) _ hrun

end Meili
